import Mathlib

/-!
# CosmicBeats-Simulator: verification of spec claims

A shallow embedding of the parts of the CosmicBeats discrete-time satellite
network simulator that the audited claims are about, together with theorems
settling each claim.

Conventions used throughout:
* A `Time` instant (UTC datetime with microsecond precision, `src/utils.py`)
  is modelled as a rational number of seconds since an arbitrary epoch;
  `Time.add_seconds` is addition, `Time.difference_in_seconds t1 t2` is
  `t1 - t2`, and the comparison operators are the rational ones.
* Python floats are modelled as rationals (exact arithmetic).
* Fallible code returns `Except`/`Option`.
-/

set_option maxHeartbeats 1000000

namespace CosmicBeats

/-! ## Node stepping (`src/nodes/satellitebasic.py`, `gsbasic.py`)

`SatelliteBasic.Execute` (and identically `GSBasic.Execute`) runs the node's
models and then advances the node's timestamp by the time delta, but only
while the timestamp has not passed the configured end timestamp.  The models
themselves do not touch the timestamp, so for the timing claim the model
execution is irrelevant and only the timestamp update is embedded. -/

structure NodeState where
  timestamp : ℚ
  endTime : ℚ
  delta : ℚ
  deriving Repr, DecidableEq

/-- `SatelliteBasic.Execute` (lines 131-152): if `timestamp <= endTimeStamp`,
run the models and then `timestamp.add_seconds(timedelta)`. -/
def nodeExecute (n : NodeState) : NodeState :=
  if n.timestamp ≤ n.endTime then
    { n with timestamp := n.timestamp + n.delta }
  else n

/-- One iteration of the `while` body of `ManagerParallel.run_Sim`
(lines 501-517): every node of every topology executes once.  A single
topology's node list is used; the worker-pool and serial paths perform the
same per-node `Execute`. -/
def runStep (ns : List NodeState) : List NodeState := ns.map nodeExecute

/-- `k` iterations of the `run_Sim` loop, i.e. simulation steps `0 .. k-1`. -/
def runSteps : ℕ → List NodeState → List NodeState
  | 0, ns => ns
  | k + 1, ns => runSteps k (runStep ns)

lemma runSteps_singleton (endT δ : ℚ) :
    ∀ (k : ℕ) (t0 : ℚ), (∀ j : ℕ, j < k → t0 + j * δ ≤ endT) →
      runSteps k [⟨t0, endT, δ⟩] = [⟨t0 + k * δ, endT, δ⟩] := by
  intro k
  induction k with
  | zero =>
    intro t0 _
    simp [runSteps]
  | succ k ih =>
    intro t0 h
    have h0 : t0 ≤ endT := by
      have := h 0 (Nat.succ_pos k)
      simpa using this
    have hstep : runStep [⟨t0, endT, δ⟩] = [⟨t0 + δ, endT, δ⟩] := by
      simp [runStep, nodeExecute, h0]
    have hrec := ih (t0 + δ) (by
      intro j hj
      have := h (j + 1) (by omega)
      have hcast : t0 + (↑(j + 1) : ℚ) * δ = t0 + δ + (j : ℚ) * δ := by
        push_cast
        ring_nf
      linarith [hcast ▸ this])
    calc runSteps (k + 1) [⟨t0, endT, δ⟩]
        = runSteps k [⟨t0 + δ, endT, δ⟩] := by rw [runSteps, hstep]
      _ = [⟨t0 + δ + k * δ, endT, δ⟩] := hrec
      _ = [⟨t0 + ↑(k + 1) * δ, endT, δ⟩] := by
          congr 1
          push_cast
          ring_nf

/-! ## Manager pause/resume (`src/sim/managerparallel.py`)

`ManagerParallel` keeps a step counter `__currentStep`, an armed pause step
`__timeStepToStop : Option ℕ` and two events, `__stoppingCondition` (the
wait-token returned to the caller, set when the loop pauses) and
`__resumingCondition` (set by `resume`, awaited by the paused loop).  The
`run_Sim` loop (lines 487-518) checks the gate at the top of each iteration,
*before* any node executes that step, then executes every node and increments
the counter. -/

structure ManagerState where
  currentStep : ℕ
  numOfSteps : ℕ
  timeStepToStop : Option ℕ
  stoppingCondition : Bool
  resumingCondition : Bool
  deriving Repr, DecidableEq

/-- `ManagerParallel.__pause_AtTime` (lines 169-197).  Returns `none` in the
second component when the requested step is already in the past, otherwise
overwrites the armed step and returns the `stoppingCondition` event as the
wait-token (modelled as `some ()`). -/
def pause_AtTime (m : ManagerState) (pauseTimeStep : ℕ) :
    ManagerState × Option Unit :=
  if pauseTimeStep < m.currentStep then (m, none)
  else ({ m with timeStepToStop := some pauseTimeStep }, some ())

/-- `ManagerParallel.__resume` (lines 199-206): clear the stopping event
(the caller's wait-token) and set the resuming event, releasing the loop. -/
def resume (m : ManagerState) : ManagerState :=
  { m with stoppingCondition := false, resumingCondition := true }

/-- Observable events of one `run_Sim` execution: `paused i` is the loop
signalling `stoppingCondition` and blocking on `resumingCondition` at the top
of step `i`; `execStep i` is the execution of every node for step `i`. -/
inductive SimEvent where
  | paused (step : ℕ)
  | execStep (step : ℕ)
  deriving Repr, DecidableEq

/-- The event trace of `ManagerParallel.run_Sim` (lines 487-518) from step
`step` with `fuel` iterations left, assuming every pause is eventually
resumed.  At the top of each iteration, if the armed gate equals the current
step the loop pauses (and later resumes); then all nodes execute the step. -/
def runSimTrace (gate : Option ℕ) : ℕ → ℕ → List SimEvent
  | _, 0 => []
  | step, fuel + 1 =>
    (if gate = some step then [SimEvent.paused step] else []) ++
      SimEvent.execStep step :: runSimTrace gate (step + 1) fuel

/-- The full trace of `run_Sim` on a manager that starts at step 0. -/
def runSim (m : ManagerState) : List SimEvent :=
  runSimTrace m.timeStepToStop 0 m.numOfSteps

lemma mem_runSimTrace_bounds (gate : Option ℕ) :
    ∀ (fuel step j : ℕ),
      (SimEvent.paused j ∈ runSimTrace gate step fuel →
        gate = some j ∧ step ≤ j ∧ j < step + fuel) ∧
      (SimEvent.execStep j ∈ runSimTrace gate step fuel →
        step ≤ j ∧ j < step + fuel) := by
  intro fuel
  induction fuel with
  | zero => intro step j; simp [runSimTrace]
  | succ fuel ih =>
    intro step j
    constructor
    · intro hmem
      rw [runSimTrace] at hmem
      rcases List.mem_append.1 hmem with h | h
      · rcases eq_or_ne gate (some step) with hg | hg
        · simp [hg] at h
          exact ⟨by rw [hg, h], by omega⟩
        · simp [hg] at h
      · rcases List.mem_cons.1 h with h' | h'
        · exact absurd h' (by simp)
        · obtain ⟨hg, h1, h2⟩ := (ih (step + 1) j).1 h'
          exact ⟨hg, by omega, by omega⟩
    · intro hmem
      rw [runSimTrace] at hmem
      rcases List.mem_append.1 hmem with h | h
      · rcases eq_or_ne gate (some step) with hg | hg
        · simp [hg] at h
        · simp [hg] at h
      · rcases List.mem_cons.1 h with h' | h'
        · have : j = step := by simpa using h'
          omega
        · obtain ⟨h1, h2⟩ := (ih (step + 1) j).2 h'
          exact ⟨by omega, by omega⟩

/-- Structure of the trace around an armed step `s`: everything before the
pause belongs to strictly earlier steps, the pause immediately precedes the
execution of step `s`. -/
lemma runSimTrace_pause_structure (s : ℕ) :
    ∀ (fuel step : ℕ), step ≤ s → s < step + fuel →
      ∃ l1 l2, runSimTrace (some s) step fuel =
          l1 ++ SimEvent.paused s :: SimEvent.execStep s :: l2 ∧
        ∀ e ∈ l1, ∃ j, j < s ∧ e = SimEvent.execStep j := by
  intro fuel
  induction fuel with
  | zero => intro step h1 h2; omega
  | succ fuel ih =>
    intro step h1 h2
    rcases Nat.eq_or_lt_of_le h1 with heq | hlt
    · refine ⟨[], runSimTrace (some s) (step + 1) fuel, ?_, by simp⟩
      rw [runSimTrace, heq]
      simp
    · have hne : (some s : Option ℕ) ≠ some step := by
        simp
        omega
      obtain ⟨l1, l2, htr, hl1⟩ := ih (step + 1) (by omega) (by omega)
      refine ⟨SimEvent.execStep step :: l1, l2, ?_, ?_⟩
      · rw [runSimTrace]
        simp [hne, htr]
      · intro e he
        rcases List.mem_cons.1 he with h | h
        · exact ⟨step, by omega, h⟩
        · exact hl1 e h

/-- The pause event for an armed step occurs at most once in the trace. -/
lemma runSimTrace_pause_count (j : ℕ) (gate : Option ℕ) :
    ∀ (fuel step : ℕ),
      (runSimTrace gate step fuel).count (SimEvent.paused j) ≤ 1 := by
  intro fuel
  induction fuel with
  | zero => intro step; simp [runSimTrace]
  | succ fuel ih =>
    intro step
    rw [runSimTrace, List.count_append,
      List.count_cons_of_ne (by simp : SimEvent.paused j ≠ SimEvent.execStep step)]
    have htail := ih (step + 1)
    rcases eq_or_ne gate (some step) with hg | hg
    · rcases eq_or_ne j step with hj | hj
      · have hnot : SimEvent.paused j ∉ runSimTrace gate (step + 1) fuel := by
          intro hmem
          have := (mem_runSimTrace_bounds gate fuel (step + 1) j).1 hmem
          omega
        have h0 := List.count_eq_zero_of_not_mem hnot
        have hif : (if gate = some step then [SimEvent.paused step]
            else []).count (SimEvent.paused j) ≤ 1 := by
          simp [hg, hj]
        omega
      · have hif : (if gate = some step then [SimEvent.paused step]
            else []).count (SimEvent.paused j) = 0 := by
          rw [if_pos hg]
          simp [hj]
        omega
    · have hif : (if gate = some step then [SimEvent.paused step]
          else []).count (SimEvent.paused j) = 0 := by
        rw [if_neg hg]
        simp
      omega

end CosmicBeats

/-- **C1, counterexample.**  The claim says that immediately after step `i`
(0-indexed) completes, a node's timestamp equals `t0 + i·Δ`.  Concretely with
`t0 = 0`, `Δ = 1`, `end = 1` (one step, `N = 1`): after step `0` completes the
timestamp is `1`, whereas the claim demands `t0 + 0·Δ = 0`. -/
theorem C1_counterexample :
    (CosmicBeats.runSteps 1 [⟨0, 1, 1⟩]).map CosmicBeats.NodeState.timestamp = [1] ∧
      (1 : ℚ) ≠ 0 + (0 : ℚ) * 1 := by
  constructor
  · norm_num [CosmicBeats.runSteps, CosmicBeats.runStep, CosmicBeats.nodeExecute]
  · norm_num

/-- **C1 (amended).**  `Node.Execute` runs its models and then advances the
node's timestamp by `Δ`, so immediately after step `i` (0-indexed, `i < N`)
completes, the node's timestamp equals `t0 + (i+1)·Δ` (equivalently, the
timestamp equals `t0 + i·Δ` while step `i`'s models execute), where the end
time is `t0 + N·Δ` and `Δ > 0`. -/
theorem C1_node_timestamp_after_step (t0 δ : ℚ) (N i : ℕ)
    (hδ : 0 < δ) (hi : i < N) :
    (CosmicBeats.runSteps (i + 1) [⟨t0, t0 + N * δ, δ⟩]).map
        CosmicBeats.NodeState.timestamp = [t0 + (i + 1 : ℕ) * δ] := by
  have h := CosmicBeats.runSteps_singleton (t0 + N * δ) δ (i + 1) t0 (by
    intro j hj
    have hjN : (j : ℚ) ≤ (N : ℚ) := by
      exact_mod_cast Nat.le_of_lt (lt_of_lt_of_le hj hi)
    nlinarith)
  rw [h]
  simp

/-- **C1, witness.**  At `t0 = 0`, `Δ = 1`, `N = 2`, after step `0` completes
the timestamp is `0 + 1·1 = 1`. -/
theorem C1_node_timestamp_after_step_witness :
    (CosmicBeats.runSteps (0 + 1) [⟨0, 0 + ((2 : ℕ) : ℚ) * 1, 1⟩]).map
        CosmicBeats.NodeState.timestamp = [(0 : ℚ) + ((0 + 1 : ℕ) : ℚ) * 1] :=
  C1_node_timestamp_after_step 0 1 2 0 (by norm_num) (by norm_num)

namespace CosmicBeats

/-- **C2.**  `pause_AtTime` returns null exactly when the requested step is
strictly less than the current step counter; otherwise it arms the one-shot
gate (overwriting any previously armed step) and returns the wait-token.
When a gate is armed at step `s` with `0 ≤ s < N`, the run loop signals
paused and blocks before any node executes step `s` (everything earlier in
the trace is the execution of a strictly earlier step, so a pause armed at
step 0 fires before any `Execute`); a pause armed at step `N` never fires,
and the pause event occurs at most once in any trace.  `resume` clears the
stopping event (releasing the waiting caller's token for reuse) and sets the
resuming event (releasing the simulator loop). -/
theorem C2_pause_gate :
    (∀ (m : ManagerState) (s : ℕ),
        (pause_AtTime m s).2 = none ↔ s < m.currentStep) ∧
    (∀ (m : ManagerState) (s : ℕ), m.currentStep ≤ s →
        (pause_AtTime m s).1.timeStepToStop = some s ∧
          (pause_AtTime m s).2 = some ()) ∧
    (∀ (N s : ℕ), s < N →
        ∃ l1 l2, runSimTrace (some s) 0 N =
            l1 ++ SimEvent.paused s :: SimEvent.execStep s :: l2 ∧
          ∀ e ∈ l1, ∃ j, j < s ∧ e = SimEvent.execStep j) ∧
    (∀ (N s : ℕ), N ≤ s → SimEvent.paused s ∉ runSimTrace (some s) 0 N) ∧
    (∀ (gate : Option ℕ) (N j : ℕ),
        (runSimTrace gate 0 N).count (SimEvent.paused j) ≤ 1) ∧
    (∀ m : ManagerState,
        (resume m).stoppingCondition = false ∧
          (resume m).resumingCondition = true) := by
  refine ⟨?_, ?_, ?_, ?_, ?_, ?_⟩
  · intro m s
    unfold pause_AtTime
    split
    · simpa using by assumption
    · simp
      omega
  · intro m s hs
    unfold pause_AtTime
    rw [if_neg (by omega)]
    exact ⟨rfl, rfl⟩
  · intro N s hs
    exact runSimTrace_pause_structure s N 0 (Nat.zero_le s) (by omega)
  · intro N s hs hmem
    have := (mem_runSimTrace_bounds (some s) N 0 s).1 hmem
    omega
  · intro gate N j
    exact runSimTrace_pause_count j gate N 0
  · intro m
    exact ⟨rfl, rfl⟩

/-- **C2, witness.**  Concrete instantiations: arming at step 5 with current
step 3 arms the gate and returns the token; a gate at step 2 in a 4-step run
pauses immediately before step 2 executes; a gate at step 3 in a 3-step run
never fires. -/
theorem C2_pause_gate_witness :
    ((pause_AtTime ⟨3, 10, none, false, false⟩ 5).1.timeStepToStop = some 5 ∧
      (pause_AtTime ⟨3, 10, none, false, false⟩ 5).2 = some ()) ∧
    (∃ l1 l2, runSimTrace (some 2) 0 4 =
        l1 ++ SimEvent.paused 2 :: SimEvent.execStep 2 :: l2 ∧
      ∀ e ∈ l1, ∃ j, j < 2 ∧ e = SimEvent.execStep j) ∧
    SimEvent.paused 3 ∉ runSimTrace (some 3) 0 3 :=
  ⟨C2_pause_gate.2.1 ⟨3, 10, none, false, false⟩ 5 (by norm_num),
    C2_pause_gate.2.2.1 4 2 (by norm_num),
    C2_pause_gate.2.2.2.1 3 3 (le_refl 3)⟩

end CosmicBeats

namespace CosmicBeats

/-! ## Power model (`src/models/models_power/modelpower.py`)

`ModelPower` keeps an energy bank `{min, max, current}` in joules.
`__consume_Energy` first resolves the keyworded arguments to an energy
amount, then performs the guarded subtraction.  `Execute` charges the bank
when in sunlight (clamped at the maximum), then consumes energy for every
"always-on" tag, recording an out-of-power flag in the per-step stats line
whenever a consumption is denied. -/

structure PowerState where
  currentCharge : ℚ
  minCharge : ℚ
  maxCharge : ℚ
  deriving Repr, DecidableEq

/-- The three keyword-argument forms accepted by `__consume_Energy`. -/
inductive ConsumeRequest where
  | energy (e : ℚ)
  | powerDuration (power duration : ℚ)
  | tagDuration (tag : String) (duration : ℚ)
  deriving Repr, DecidableEq

/-- Argument resolution of `ModelPower.__consume_Energy` (lines 113-140):
direct energy, `duration * power`, or `consumptionDict[tag] * duration`;
an unknown tag is logged and treated as drawing no power. -/
def resolve_Energy (powerConsumptionDict : List (String × ℚ)) :
    ConsumeRequest → ℚ
  | .energy e => e
  | .powerDuration p d => d * p
  | .tagDuration tag d =>
    match powerConsumptionDict.find? (fun kv => kv.1 = tag) with
    | some kv => kv.2 * d
    | none => 0

/-- The guarded subtraction of `ModelPower.__consume_Energy`
(lines 141-154): consume only if `currentCharge >= energy + minCharge`. -/
def consume_Energy (st : PowerState) (energyToConsume : ℚ) :
    Bool × PowerState :=
  if energyToConsume + st.minCharge ≤ st.currentCharge then
    (true, { st with currentCharge := st.currentCharge - energyToConsume })
  else
    (false, st)

/-- The always-on consumption loop of `ModelPower.Execute` (lines 319-323):
each tag consumes `consumptionDict[tag] * timestep`; the returned list
records, in order, whether each request was granted. -/
def powerExecuteAlwaysOn (dict : List (String × ℚ)) (timestep : ℚ) :
    PowerState → List String → PowerState × List Bool
  | st, [] => (st, [])
  | st, tag :: rest =>
    let res := consume_Energy st (resolve_Energy dict (.tagDuration tag timestep))
    let recres := powerExecuteAlwaysOn dict timestep res.2 rest
    (recres.1, res.1 :: recres.2)

/-- The sunlight-charging part of `ModelPower.Execute` (lines 311-314):
add `powerGeneration * timestep * batteryEfficiency` when in sunlight,
then clamp at `maxCharge`. -/
def powerCharged (st : PowerState) (inSunlight : Bool)
    (powerGeneration timestep batteryEfficiency : ℚ) : PowerState :=
  let charged :=
    if inSunlight then
      st.currentCharge + powerGeneration * timestep * batteryEfficiency
    else st.currentCharge
  { st with currentCharge := min charged st.maxCharge }

/-- `ModelPower.Execute` (lines 297-325): charge from sunlight (clamped at
`maxCharge`), then run the always-on loop; the second component is the
`__outOfPowerLogger` flag written to the per-step `PowerStats` summary,
true when some always-on request was denied. -/
def powerExecute (st : PowerState) (inSunlight : Bool)
    (powerGeneration timestep batteryEfficiency : ℚ)
    (dict : List (String × ℚ)) (alwaysOn : List String) :
    PowerState × Bool :=
  let res := powerExecuteAlwaysOn dict timestep
    (powerCharged st inSunlight powerGeneration timestep batteryEfficiency)
    alwaysOn
  (res.1, res.2.contains false)

/-- **C7.**  A `consume_Energy` request that resolves to energy `E` succeeds
(returns true and subtracts exactly `E`) if and only if
`currentCharge ≥ E + minCharge`; otherwise it returns false and leaves the
charge unchanged; consequently a consumption never takes the bank below its
minimum; and in `Execute`'s always-on loop a denied request sets the
out-of-power flag of the per-step summary. -/
theorem C7_consume_energy_guard :
    (∀ (st : PowerState) (e : ℚ),
        ((consume_Energy st e).1 = true ↔ e + st.minCharge ≤ st.currentCharge) ∧
        ((consume_Energy st e).1 = true →
          (consume_Energy st e).2.currentCharge = st.currentCharge - e) ∧
        ((consume_Energy st e).1 = false → (consume_Energy st e).2 = st) ∧
        (st.minCharge ≤ st.currentCharge →
          st.minCharge ≤ (consume_Energy st e).2.currentCharge)) ∧
    (∀ (st : PowerState) (inSunlight : Bool)
        (gen ts eff : ℚ) (dict : List (String × ℚ)) (tags : List String),
        (powerExecute st inSunlight gen ts eff dict tags).2 = true ↔
          false ∈ (powerExecuteAlwaysOn dict ts
            (powerCharged st inSunlight gen ts eff) tags).2) := by
  constructor
  · intro st e
    unfold consume_Energy
    by_cases h : e + st.minCharge ≤ st.currentCharge
    · rw [if_pos h]
      refine ⟨by simpa using h, fun _ => rfl, by simp, fun hmin => ?_⟩
      simpa using by linarith
    · rw [if_neg h]
      exact ⟨by simpa using h, by simp, fun _ => rfl, fun hmin => hmin⟩
  · intro st inSunlight gen ts eff dict tags
    unfold powerExecute
    exact List.elem_iff

/-- **C7, witness.**  A bank with `current = 10`, `min = 4`: consuming `6`
succeeds and lands exactly on the minimum; consuming `7` is denied, the
charge is unchanged, and an always-on step consuming `7` reports
out-of-power in the summary. -/
theorem C7_consume_energy_guard_witness :
    ((consume_Energy ⟨10, 4, 20⟩ 6).1 = true ↔
        (6 : ℚ) + 4 ≤ 10) ∧
    ((consume_Energy ⟨10, 4, 20⟩ 7).1 = false →
        (consume_Energy ⟨10, 4, 20⟩ 7).2 = ⟨10, 4, 20⟩) ∧
    ((powerExecute ⟨10, 4, 10⟩ false 0 1 1 [("TXRADIO", 7)] ["TXRADIO"]).2
        = true ↔
      false ∈ (powerExecuteAlwaysOn [("TXRADIO", 7)] 1
        (powerCharged ⟨10, 4, 10⟩ false 0 1 1) ["TXRADIO"]).2) :=
  ⟨(C7_consume_energy_guard.1 ⟨10, 4, 20⟩ 6).1,
    (C7_consume_energy_guard.1 ⟨10, 4, 20⟩ 7).2.2.1,
    C7_consume_energy_guard.2 ⟨10, 4, 10⟩ false 0 1 1 [("TXRADIO", 7)]
      ["TXRADIO"]⟩

end CosmicBeats

namespace CosmicBeats

/-! ## LoRa link PER (`src/models/network/lora/loralink.py`)

`LoraLink.get_PERFromBER` (lines 321-354) converts the frame size to bits,
validates the BER and the allowed number of wrong bits, then subtracts the
binomial probabilities `C(N, i) p^i (1-p)^(N-i)` for `i = 0 .. k` from 1.
The BER itself comes from `get_BER` (an SNR-table lookup) and enters here as
a parameter. -/

/-- `LoraLink.get_PERFromBER`.  `allowedBitsWrong` is a Python `int`
(possibly negative), `sizeBytes` the frame size in bytes. -/
def get_PERFromBER (ber : ℚ) (allowedBitsWrong : ℤ) (sizeBytes : ℕ) :
    Except String ℚ :=
  let size : ℤ := (sizeBytes : ℤ) * 8
  if ¬(0 ≤ ber ∧ ber ≤ 1) then
    .error "BER must be between 0 and 1"
  else if allowedBitsWrong < 0 ∨ allowedBitsWrong > size then
    .error "Number of allowed bits wrong must be non-negative and less than or equal to the frame size"
  else
    let p := ber
    let q := 1 - p
    .ok ((List.range (allowedBitsWrong.toNat + 1)).foldl
      (fun prob idx =>
        prob - (Nat.choose (sizeBytes * 8) idx : ℚ) * p ^ idx *
          q ^ (sizeBytes * 8 - idx)) 1)

lemma foldl_sub_eq_one_sub_sum (f : ℕ → ℚ) :
    ∀ (n : ℕ) (c : ℚ),
      (List.range n).foldl (fun prob idx => prob - f idx) c =
        c - ∑ i ∈ Finset.range n, f i := by
  intro n
  induction n with
  | zero => intro c; simp
  | succ n ih =>
    intro c
    rw [List.range_succ, List.foldl_append, ih, Finset.sum_range_succ]
    simp
    ring

/-- **C9.**  For `0 ≤ ber ≤ 1` and `0 ≤ k ≤ 8·S`, `get_PERFromBER k S`
equals `1 - Σ_{i=0..k} C(8S, i) ber^i (1-ber)^(8S-i)`, the probability of
more than `k` bit errors among `N = 8S` bits; a BER outside `[0,1]`, a
negative `k`, or `k > 8S` raises `ValueError`. -/
theorem C9_per_from_ber :
    (∀ (ber : ℚ) (k : ℤ) (S : ℕ), 0 ≤ ber → ber ≤ 1 → 0 ≤ k → k ≤ (S : ℤ) * 8 →
        get_PERFromBER ber k S =
          .ok (1 - ∑ i ∈ Finset.range (k.toNat + 1),
            (Nat.choose (S * 8) i : ℚ) * ber ^ i * (1 - ber) ^ (S * 8 - i))) ∧
    (∀ (ber : ℚ) (k : ℤ) (S : ℕ), ¬(0 ≤ ber ∧ ber ≤ 1) →
        get_PERFromBER ber k S = .error "BER must be between 0 and 1") ∧
    (∀ (ber : ℚ) (k : ℤ) (S : ℕ), 0 ≤ ber → ber ≤ 1 →
        (k < 0 ∨ k > (S : ℤ) * 8) →
        get_PERFromBER ber k S = .error
          "Number of allowed bits wrong must be non-negative and less than or equal to the frame size") := by
  refine ⟨?_, ?_, ?_⟩
  · intro ber k S h0 h1 hk0 hk8
    unfold get_PERFromBER
    rw [if_neg (by push_neg; exact ⟨h0, h1⟩), if_neg (by omega)]
    dsimp only
    rw [foldl_sub_eq_one_sub_sum
      (fun idx => ((S * 8).choose idx : ℚ) * ber ^ idx *
        (1 - ber) ^ (S * 8 - idx)) (k.toNat + 1) 1]
  · intro ber k S h
    unfold get_PERFromBER
    rw [if_pos h]
  · intro ber k S h0 h1 hk
    unfold get_PERFromBER
    rw [if_neg (by push_neg; exact ⟨h0, h1⟩), if_pos (by omega)]

/-- **C9, witness.**  With `ber = 1/2`, `k = 1`, `S = 1` (8 bits):
`PER = 1 - (C(8,0) + C(8,1))/256 = 247/256`; a BER of `2` and a `k` of `9`
are rejected. -/
theorem C9_per_from_ber_witness :
    get_PERFromBER (1/2) 1 1 =
      .ok (1 - ∑ i ∈ Finset.range ((1 : ℤ).toNat + 1),
        (Nat.choose (1 * 8) i : ℚ) * (1/2) ^ i * (1 - 1/2) ^ (1 * 8 - i)) ∧
    get_PERFromBER 2 1 1 = .error "BER must be between 0 and 1" ∧
    get_PERFromBER (1/2) 9 1 = .error
      "Number of allowed bits wrong must be non-negative and less than or equal to the frame size" :=
  ⟨C9_per_from_ber.1 (1/2) 1 1 (by norm_num) (by norm_num) (by norm_num)
      (by norm_num),
    C9_per_from_ber.2.1 2 1 1 (by norm_num),
    C9_per_from_ber.2.2 (1/2) 9 1 (by norm_num) (by norm_num) (by norm_num)⟩

end CosmicBeats

namespace CosmicBeats

/-! ## Orchestrator model assembly (`src/sim/orchestrator.py`)

`Orchestrator._add_Models` (lines 110-225) builds each candidate model,
checks node-class compatibility, skips duplicate `iName`s with a printed
warning, and then resolves the dependency lists (a conjunction of
disjunctions) against the models assembled for the same node, raising an
exception naming the model and the node id when a slot is unmet.  Model
construction itself (the registry call) always yields the descriptor here;
what matters for the claim are the three checks. -/

structure ModelDesc where
  iname : String
  supportedNodeClasses : List String
  dependencyModelClasses : List (List String)
  deriving Repr, DecidableEq

inductive AddModelsError where
  | unsupportedNode (modelIname nodeIname : String)
  | dependencyMismatch (modelIname : String) (nodeID : ℕ)
      (modelNameSet : List String)
  deriving Repr, DecidableEq

/-- The node-class compatibility rule (lines 139-149): an empty supported
list accepts any node, otherwise the node's own `iName` must appear. -/
def supportedBy (nodeIname : String) (d : ModelDesc) : Prop :=
  d.supportedNodeClasses = [] ∨ nodeIname ∈ d.supportedNodeClasses

instance (nodeIname : String) (d : ModelDesc) :
    Decidable (supportedBy nodeIname d) := by
  unfold supportedBy
  infer_instance

/-- The first loop of `_add_Models` (lines 128-166): accumulate the
candidate models, skipping (with a warning) any whose `iName` is already in
the name set, and raising on a node-class mismatch.  `temp` and `names` are
the accumulators `_tempModelList` and `_modelNameSet`. -/
def build_TempModelList (nodeIname : String) :
    List ModelDesc → List ModelDesc → List String →
    Except AddModelsError (List ModelDesc × List String)
  | [], temp, names => .ok (temp, names)
  | d :: rest, temp, names =>
    if supportedBy nodeIname d then
      if names ≠ [] ∧ d.iname ∈ names then
        build_TempModelList nodeIname rest temp names
      else
        build_TempModelList nodeIname rest (temp ++ [d]) (names ++ [d.iname])
    else .error (.unsupportedNode d.iname nodeIname)

/-- One dependency sublist is satisfied when some assembled model's `iName`
matches one of its entries (lines 193-206; the scan includes the model
being checked itself). -/
def slotSatisfied (temp : List ModelDesc) (slot : List String) : Bool :=
  slot.any (fun dep => temp.any (fun m => m.iname = dep))

/-- The dependency-resolution loop (lines 187-216): the first model with an
unresolved sublist, if any. -/
def find_DependencyMismatch (temp : List ModelDesc) : Option ModelDesc :=
  temp.find? (fun m =>
    !(m.dependencyModelClasses.all (fun slot => slotSatisfied temp slot)))

/-- Python set equality on the name sets used by the resolution cache. -/
def sameNameSet (a b : List String) : Bool :=
  a.all (fun x => x ∈ b) && b.all (fun x => x ∈ a)

/-- `Orchestrator._add_Models` (lines 110-225).  `cache` is the orchestrator
field `__dependencyResolvedSetsOfModels`; on success the assembled model
list and the updated cache are returned (a singleton name set is not
cached, line 220). -/
def add_Models (nodeIname : String) (nodeID : ℕ)
    (cache : List (List String)) (models : List ModelDesc) :
    Except AddModelsError (List ModelDesc × List (List String)) :=
  match build_TempModelList nodeIname models [] [] with
  | .error e => .error e
  | .ok (temp, names) =>
    if cache.any (fun s => sameNameSet s names) then
      .ok (temp, cache)
    else
      match find_DependencyMismatch temp with
      | some m => .error (.dependencyMismatch m.iname nodeID names)
      | none =>
        .ok (temp, if names.length > 1 then cache ++ [names] else cache)

/-- The text of the dependency-mismatch exception (line 216); Python's
`str(set)` rendering of the name set is modelled by joining the names. -/
def dependencyMismatchMessage (modelIname : String) (nodeID : ℕ)
    (modelNameSet : List String) : String :=
  "[Simulator Exception] Model " ++ modelIname ++
    " has dependency mismatch inside node ID: " ++ toString nodeID ++
    " Model wanted: " ++ String.intercalate ", " modelNameSet

lemma build_TempModelList_sound (nodeIname : String) :
    ∀ (rest temp : List ModelDesc) (names : List String)
      (temp' : List ModelDesc) (names' : List String),
      build_TempModelList nodeIname rest temp names = .ok (temp', names') →
      (∀ d ∈ rest, supportedBy nodeIname d) ∧
      (∀ x ∈ temp', x ∈ temp ∨ x ∈ rest) ∧
      (∀ s ∈ names, s ∈ names') ∧
      (∀ d ∈ rest, d.iname ∈ names') ∧
      (temp.map ModelDesc.iname = names → names.Nodup →
        temp'.map ModelDesc.iname = names' ∧ names'.Nodup) := by
  intro rest
  induction rest with
  | nil =>
    intro temp names temp' names' h
    rw [build_TempModelList] at h
    injection h with h
    injection h with h1 h2
    subst h1; subst h2
    exact ⟨by simp, fun x hx => Or.inl hx, fun s hs => hs, by simp,
      fun hmap hnd => ⟨hmap, hnd⟩⟩
  | cons d rest ih =>
    intro temp names temp' names' h
    rw [build_TempModelList] at h
    by_cases hsup : supportedBy nodeIname d
    · rw [if_pos hsup] at h
      by_cases hdup : names ≠ [] ∧ d.iname ∈ names
      · rw [if_pos hdup] at h
        obtain ⟨hall, hsub, hmono, hnames, hnodup⟩ :=
          ih temp names temp' names' h
        refine ⟨?_, ?_, hmono, ?_, hnodup⟩
        · intro x hx
          rcases List.mem_cons.1 hx with hx | hx
          · exact hx ▸ hsup
          · exact hall x hx
        · intro x hx
          rcases hsub x hx with hx' | hx'
          · exact Or.inl hx'
          · exact Or.inr (List.mem_cons_of_mem d hx')
        · intro x hx
          rcases List.mem_cons.1 hx with hx | hx
          · exact hx ▸ hmono d.iname hdup.2
          · exact hnames x hx
      · rw [if_neg hdup] at h
        obtain ⟨hall, hsub, hmono, hnames, hnodup⟩ :=
          ih (temp ++ [d]) (names ++ [d.iname]) temp' names' h
        have hdnotin : d.iname ∉ names := by
          by_cases hne : names = []
          · subst hne; simp
          · intro hmem; exact hdup ⟨hne, hmem⟩
        refine ⟨?_, ?_, ?_, ?_, ?_⟩
        · intro x hx
          rcases List.mem_cons.1 hx with hx | hx
          · exact hx ▸ hsup
          · exact hall x hx
        · intro x hx
          rcases hsub x hx with hx' | hx'
          · rcases List.mem_append.1 hx' with h' | h'
            · exact Or.inl h'
            · exact Or.inr (List.mem_cons.2 (Or.inl (by simpa using h')))
          · exact Or.inr (List.mem_cons_of_mem d hx')
        · intro s hs
          exact hmono s (List.mem_append.2 (Or.inl hs))
        · intro x hx
          rcases List.mem_cons.1 hx with hx | hx
          · exact hx ▸ hmono d.iname (List.mem_append.2 (Or.inr (by simp)))
          · exact hnames x hx
        · intro hmap hnd
          refine hnodup ?_ ?_
          · rw [List.map_append, hmap]
            simp
          · simpa [List.nodup_append, hnd] using hdnotin
    · rw [if_neg hsup] at h
      exact absurd h (by simp)

lemma build_TempModelList_ok_of_supported (nodeIname : String) :
    ∀ (rest temp : List ModelDesc) (names : List String),
      (∀ d ∈ rest, supportedBy nodeIname d) →
      ∃ temp' names',
        build_TempModelList nodeIname rest temp names = .ok (temp', names') := by
  intro rest
  induction rest with
  | nil =>
    intro temp names _
    exact ⟨temp, names, rfl⟩
  | cons d rest ih =>
    intro temp names hall
    rw [build_TempModelList,
      if_pos (hall d (List.mem_cons_self d rest))]
    by_cases hdup : names ≠ [] ∧ d.iname ∈ names
    · rw [if_pos hdup]
      exact ih temp names (fun x hx => hall x (List.mem_cons_of_mem d hx))
    · rw [if_neg hdup]
      exact ih (temp ++ [d]) (names ++ [d.iname])
        (fun x hx => hall x (List.mem_cons_of_mem d hx))

lemma find_DependencyMismatch_eq_none (temp : List ModelDesc) :
    find_DependencyMismatch temp = none ↔
      ∀ m ∈ temp, ∀ slot ∈ m.dependencyModelClasses,
        ∃ m' ∈ temp, m'.iname ∈ slot := by
  unfold find_DependencyMismatch
  rw [List.find?_eq_none]
  constructor
  · intro h m hm slot hslot
    have := h m hm
    simp only [Bool.not_eq_true', Bool.not_eq_false] at this
    rw [List.all_eq_true] at this
    have hs := this slot hslot
    unfold slotSatisfied at hs
    rw [List.any_eq_true] at hs
    obtain ⟨dep, hdep, hany⟩ := hs
    rw [List.any_eq_true] at hany
    obtain ⟨m', hm', heq⟩ := hany
    have heq' : m'.iname = dep := by simpa using heq
    exact ⟨m', hm', heq' ▸ hdep⟩
  · intro h m hm
    simp only [Bool.not_eq_true', Bool.not_eq_false]
    rw [List.all_eq_true]
    intro slot hslot
    obtain ⟨m', hm', hin⟩ := h m hm slot hslot
    unfold slotSatisfied
    rw [List.any_eq_true]
    exact ⟨m'.iname, hin, by rw [List.any_eq_true]; exact ⟨m', hm', by simp⟩⟩

end CosmicBeats

namespace CosmicBeats

/-- **C8, counterexample.**  A node (id 7) with the single model `"A"` whose
only dependency slot is `["B"]` fails dependency resolution, but the raised
message names the model `"A"`, the node id and the node's model-name set —
the unmet slot's entry `"B"` appears nowhere in it, so the failure message
does not name the unmet slot. -/
theorem C8_counterexample :
    add_Models "SatelliteBasic" 7 [] [⟨"A", [], [["B"]]⟩] =
      .error (.dependencyMismatch "A" 7 ["A"]) ∧
    'B' ∉ (dependencyMismatchMessage "A" 7 ["A"]).toList := by
  constructor
  · rfl
  · decide

/-- **C8 (amended).**  For every node assembled by `_add_Models`: a model
whose `iName` duplicates one already added to the same node is skipped, so
the assembled list never holds two models with the same `iName` while every
candidate's `iName` is represented; a model with a non-empty supported
node-class list that does not include the node's own `iName` causes a
failure; and (with an empty resolution cache, for models that do not name
themselves in their own dependency slots) construction succeeds if and only
if every dependency slot of every added model is satisfied by some other
model of the same node whose `iName` matches one of the slot's entries —
otherwise it fails with a message naming the model whose slot is unmet and
the node id (not the slot itself). -/
theorem C8_add_models :
    (∀ (nodeIname : String) (models temp : List ModelDesc)
        (names : List String),
        build_TempModelList nodeIname models [] [] = .ok (temp, names) →
        (temp.map ModelDesc.iname).Nodup ∧
        temp.map ModelDesc.iname = names ∧
        ∀ d ∈ models, d.iname ∈ names) ∧
    (∀ (nodeIname : String) (nodeID : ℕ) (cache : List (List String))
        (models : List ModelDesc) (d : ModelDesc), d ∈ models →
        ¬supportedBy nodeIname d →
        ∃ e, add_Models nodeIname nodeID cache models = .error e) ∧
    (∀ (nodeIname : String) (nodeID : ℕ) (models temp : List ModelDesc)
        (names : List String),
        (∀ d ∈ models, ∀ slot ∈ d.dependencyModelClasses, d.iname ∉ slot) →
        build_TempModelList nodeIname models [] [] = .ok (temp, names) →
        ((∃ r, add_Models nodeIname nodeID [] models = .ok r) ↔
          ∀ m ∈ temp, ∀ slot ∈ m.dependencyModelClasses,
            ∃ m' ∈ temp, m'.iname ≠ m.iname ∧ m'.iname ∈ slot)) ∧
    (∀ (nodeIname : String) (nodeID : ℕ) (models temp : List ModelDesc)
        (names : List String) (m : ModelDesc),
        build_TempModelList nodeIname models [] [] = .ok (temp, names) →
        find_DependencyMismatch temp = some m →
        add_Models nodeIname nodeID [] models =
          .error (.dependencyMismatch m.iname nodeID names)) := by
  refine ⟨?_, ?_, ?_, ?_⟩
  · intro nodeIname models temp names hb
    obtain ⟨_, _, _, hnames, hnodup⟩ :=
      build_TempModelList_sound nodeIname models [] [] temp names hb
    obtain ⟨hmap, hnd⟩ := hnodup rfl List.nodup_nil
    exact ⟨hmap ▸ hnd, hmap, hnames⟩
  · intro nodeIname nodeID cache models d hd hunsup
    rcases hb : build_TempModelList nodeIname models [] [] with e | r
    · exact ⟨e, by unfold add_Models; rw [hb]⟩
    · obtain ⟨temp, names⟩ := r
      exact absurd
        ((build_TempModelList_sound nodeIname models [] [] temp names hb).1
          d hd) hunsup
  · intro nodeIname nodeID models temp names hself hb
    obtain ⟨_, hsub, _, _, _⟩ :=
      build_TempModelList_sound nodeIname models [] [] temp names hb
    have htempmodels : ∀ x ∈ temp, x ∈ models := by
      intro x hx
      rcases hsub x hx with h | h
      · exact absurd h (List.not_mem_nil x)
      · exact h
    have hok : (∃ r, add_Models nodeIname nodeID [] models = .ok r) ↔
        find_DependencyMismatch temp = none := by
      unfold add_Models
      rw [hb]
      simp only [List.any_nil, Bool.false_eq_true, if_false]
      constructor
      · rintro ⟨r, hr⟩
        rcases hf : find_DependencyMismatch temp with _ | m
        · rfl
        · rw [hf] at hr
          exact absurd hr (by simp)
      · intro hf
        rw [hf]
        exact ⟨_, rfl⟩
    rw [hok, find_DependencyMismatch_eq_none]
    constructor
    · intro h m hm slot hslot
      obtain ⟨m', hm', hin⟩ := h m hm slot hslot
      refine ⟨m', hm', ?_, hin⟩
      intro heq
      exact hself m (htempmodels m hm) slot hslot (heq ▸ hin)
    · intro h m hm slot hslot
      obtain ⟨m', hm', _, hin⟩ := h m hm slot hslot
      exact ⟨m', hm', hin⟩
  · intro nodeIname nodeID models temp names m hb hf
    unfold add_Models
    rw [hb]
    simp only [List.any_nil, Bool.false_eq_true, if_false]
    rw [hf]

/-- **C8, witness.**  A satellite node with `ModelOrbit` (node-class bound
to `SatelliteBasic`, no dependencies) and `ModelPower` (depending on the
slot `["ModelOrbit"]`): assembly keeps both models with distinct names, and
construction succeeds because every slot is satisfied by another model. -/
theorem C8_add_models_witness :
    ((([⟨"ModelOrbit", ["SatelliteBasic"], []⟩,
        ⟨"ModelPower", [], [["ModelOrbit"]]⟩] : List ModelDesc).map
        ModelDesc.iname).Nodup ∧
      ([⟨"ModelOrbit", ["SatelliteBasic"], []⟩,
        ⟨"ModelPower", [], [["ModelOrbit"]]⟩] : List ModelDesc).map
          ModelDesc.iname = ["ModelOrbit", "ModelPower"] ∧
      ∀ d ∈ ([⟨"ModelOrbit", ["SatelliteBasic"], []⟩,
        ⟨"ModelPower", [], [["ModelOrbit"]]⟩] : List ModelDesc),
        d.iname ∈ ["ModelOrbit", "ModelPower"]) ∧
    (∃ r, add_Models "SatelliteBasic" 1 []
        [⟨"ModelOrbit", ["SatelliteBasic"], []⟩,
          ⟨"ModelPower", [], [["ModelOrbit"]]⟩] = .ok r) ∧
    (∃ e, add_Models "SatelliteBasic" 1 []
        [⟨"ModelMacGs", ["GSBasic"], []⟩] = .error e) :=
  ⟨C8_add_models.1 "SatelliteBasic"
      [⟨"ModelOrbit", ["SatelliteBasic"], []⟩,
        ⟨"ModelPower", [], [["ModelOrbit"]]⟩]
      [⟨"ModelOrbit", ["SatelliteBasic"], []⟩,
        ⟨"ModelPower", [], [["ModelOrbit"]]⟩]
      ["ModelOrbit", "ModelPower"] rfl,
    (C8_add_models.2.2.1 "SatelliteBasic" 1
      [⟨"ModelOrbit", ["SatelliteBasic"], []⟩,
        ⟨"ModelPower", [], [["ModelOrbit"]]⟩]
      [⟨"ModelOrbit", ["SatelliteBasic"], []⟩,
        ⟨"ModelPower", [], [["ModelOrbit"]]⟩]
      ["ModelOrbit", "ModelPower"] (by decide) rfl).mpr (by decide),
    C8_add_models.2.1 "SatelliteBasic" 1 [] [⟨"ModelMacGs", ["GSBasic"], []⟩]
      ⟨"ModelMacGs", ["GSBasic"], []⟩ (List.mem_singleton.2 rfl) (by decide)⟩

end CosmicBeats

namespace CosmicBeats

/-! ## Manager node-info API (`src/sim/managerparallel.py` lines 125-167,
423-444, and `src/nodes/satellitebasic.py` lines 248-279)

Python object identity matters for this claim, so values are paired with an
abstract heap address: `Time.copy()` allocates a fresh address carrying the
same value, while returning a stored attribute hands out the existing
address.  `nextAddr` plays the role of the allocator; every live object's
address is below it. -/

structure TimeObj where
  addr : ℕ
  val : ℚ
  deriving Repr, DecidableEq

structure LocObj where
  addr : ℕ
  x : ℚ
  y : ℚ
  z : ℚ
  deriving Repr, DecidableEq

/-- The per-node state consulted by `__get_NodeInfo`: the node's current
`Time` object and its position dictionary keyed by `time.to_str()`
(modelled by the time value, `to_str` being injective at microsecond
precision). -/
structure NodeObj where
  nodeID : ℕ
  timestamp : TimeObj
  positionDictionary : List (ℚ × LocObj)
  deriving Repr, DecidableEq

/-- All addresses making up a node's internal state. -/
def NodeObj.addrs (n : NodeObj) : List ℕ :=
  n.timestamp.addr :: n.positionDictionary.map (fun kv => kv.2.addr)

/-- `Time.copy()` (`src/utils.py` lines 24-28): a fresh object with the same
value.  Returns the new allocator limit and the copy. -/
def timeCopy (nextAddr : ℕ) (t : TimeObj) : ℕ × TimeObj :=
  (nextAddr + 1, ⟨nextAddr, t.val⟩)

/-- `SatelliteBasic.get_Position` (lines 248-279): look the requested time
up in the position dictionary and return the stored `Location` object
itself; on a miss, fall back to the orbital model's `get_Position` API,
which builds a fresh object (modelled by `orbitFallback`), else raise. -/
def node_get_Position (nextAddr : ℕ) (n : NodeObj)
    (orbitFallback : Option (ℚ × ℚ × ℚ)) (t : Option ℚ) :
    Except String (ℕ × LocObj) :=
  let time := t.getD n.timestamp.val
  match n.positionDictionary.find? (fun kv => kv.1 = time) with
  | some kv => .ok (nextAddr, kv.2)
  | none =>
    match orbitFallback with
    | some (x, y, z) => .ok (nextAddr + 1, ⟨nextAddr, x, y, z⟩)
    | none => .error "Position not found for node"

/-- The result object handed back by `__get_NodeInfo`. -/
inductive NodeInfo where
  | timeInfo (t : TimeObj)
  | positionInfo (l : LocObj)
  deriving Repr, DecidableEq

/-- `ManagerParallel.__get_NodeInfo` (lines 125-167): `"time"` returns
`node.timestamp.copy()`, `"position"` returns `node.get_Position()`, any
other info type raises. -/
def get_NodeInfo (nextAddr : ℕ) (n : NodeObj)
    (orbitFallback : Option (ℚ × ℚ × ℚ)) (infoType : String) :
    Except String (ℕ × NodeInfo) :=
  match infoType with
  | "time" =>
    let res := timeCopy nextAddr n.timestamp
    .ok (res.1, .timeInfo res.2)
  | "position" =>
    match node_get_Position nextAddr n orbitFallback none with
    | .ok (na, loc) => .ok (na, .positionInfo loc)
    | .error e => .error e
  | other => .error ("[API: get_NodeInfo]: The information type " ++ other ++
      " is not supported")

/-- `ManagerParallel.call_APIs` (lines 423-444): look the API name up in the
handler dictionary and run the handler; a missing name or a raising handler
is caught, a warning is printed and `None` is returned.  The handler table
is abstracted to the closures' results; the boolean records whether the
warning was printed. -/
def call_APIs {α : Type} (handlers : List (String × (Unit → Except String α)))
    (api : String) : Option α × Bool :=
  match handlers.find? (fun kv => kv.1 = api) with
  | none => (none, true)
  | some kv =>
    match kv.2 () with
    | .ok v => (some v, false)
    | .error _ => (none, true)

/-- The manager's handler table restricted to the claim's API, wired to a
given node and allocator state. -/
def managerHandlers (nextAddr : ℕ) (n : NodeObj)
    (orbitFallback : Option (ℚ × ℚ × ℚ)) (infoType : String) :
    List (String × (Unit → Except String (ℕ × NodeInfo))) :=
  [("get_NodeInfo", fun _ => get_NodeInfo nextAddr n orbitFallback infoType)]

end CosmicBeats

namespace CosmicBeats

/-- **C10, counterexample.**  On a node whose position dictionary stores the
`Location` object at address 1 for the current time, `get_NodeInfo` with
`"position"` returns that very object (address 1, a member of the node's
internal state), not a copy distinct from the node's internal state. -/
theorem C10_counterexample :
    get_NodeInfo 5 ⟨1, ⟨0, 100⟩, [(100, ⟨1, 5, 6, 7⟩)]⟩ none "position" =
      .ok (5, .positionInfo ⟨1, 5, 6, 7⟩) ∧
    (1 : ℕ) ∈ NodeObj.addrs ⟨1, ⟨0, 100⟩, [(100, ⟨1, 5, 6, 7⟩)]⟩ := by
  constructor
  · rfl
  · decide

/-- **C10 (amended).**  `get_NodeInfo` with `"time"` returns a copy of the
node's current timestamp — a freshly allocated object, distinct from every
object of the node's internal state, carrying the same value — while with
`"position"` it returns the node's stored position object itself (the very
object in the position dictionary, not a copy); for any unknown info type
`get_NodeInfo` raises, and through `call_APIs` both an unknown info type and
an unknown API name yield `none` with a printed warning instead of an
exception reaching the caller. -/
theorem C10_get_node_info :
    (∀ (na : ℕ) (n : NodeObj) (orb : Option (ℚ × ℚ × ℚ)),
        get_NodeInfo na n orb "time" =
          .ok (na + 1, .timeInfo ⟨na, n.timestamp.val⟩) ∧
        ((∀ a ∈ n.addrs, a < na) → na ∉ n.addrs)) ∧
    (∀ (na : ℕ) (n : NodeObj) (orb : Option (ℚ × ℚ × ℚ)) (kv : ℚ × LocObj),
        n.positionDictionary.find? (fun kv => kv.1 = n.timestamp.val) =
            some kv →
        get_NodeInfo na n orb "position" = .ok (na, .positionInfo kv.2) ∧
        kv.2.addr ∈ n.addrs) ∧
    (∀ (na : ℕ) (n : NodeObj) (orb : Option (ℚ × ℚ × ℚ)) (infoType : String),
        infoType ≠ "time" → infoType ≠ "position" →
        get_NodeInfo na n orb infoType =
          .error ("[API: get_NodeInfo]: The information type " ++ infoType ++
            " is not supported") ∧
        call_APIs (managerHandlers na n orb infoType) "get_NodeInfo" =
          (none, true)) ∧
    (∀ (na : ℕ) (n : NodeObj) (orb : Option (ℚ × ℚ × ℚ))
        (infoType api : String), api ≠ "get_NodeInfo" →
        call_APIs (managerHandlers na n orb infoType) api = (none, true)) := by
  refine ⟨?_, ?_, ?_, ?_⟩
  · intro na n orb
    refine ⟨rfl, ?_⟩
    intro hwf hmem
    exact absurd (hwf na hmem) (lt_irrefl na)
  · intro na n orb kv hfind
    constructor
    · unfold get_NodeInfo node_get_Position
      simp only [Option.getD_none]
      rw [hfind]
    · have hkv := List.mem_of_find?_eq_some hfind
      unfold NodeObj.addrs
      exact List.mem_cons_of_mem _ (List.mem_map.2 ⟨kv, hkv, rfl⟩)
  · intro na n orb infoType h1 h2
    have herr : get_NodeInfo na n orb infoType =
        .error ("[API: get_NodeInfo]: The information type " ++ infoType ++
          " is not supported") := by
      unfold get_NodeInfo
      split
      · exact absurd rfl h1
      · exact absurd rfl h2
      · rfl
    refine ⟨herr, ?_⟩
    unfold call_APIs managerHandlers
    simp only [List.find?_singleton]
    rw [if_pos (by simp), herr]
  · intro na n orb infoType api hapi
    unfold call_APIs managerHandlers
    simp only [List.find?_singleton]
    rw [if_neg (by simpa using fun h => hapi h.symm)]

/-- **C10, witness.**  On a concrete node (timestamp object at address 0
holding time 100, position stored at address 1): `"time"` yields a fresh
copy at address 5, `"position"` yields the stored object, `"velocity"` and
a misspelt API name are refused with a warning. -/
theorem C10_get_node_info_witness :
    ((∀ a ∈ NodeObj.addrs ⟨1, ⟨0, 100⟩, [(100, ⟨1, 5, 6, 7⟩)]⟩, a < 5) →
      (5 : ℕ) ∉ NodeObj.addrs ⟨1, ⟨0, 100⟩, [(100, ⟨1, 5, 6, 7⟩)]⟩) ∧
    (get_NodeInfo 5 ⟨1, ⟨0, 100⟩, [(100, ⟨1, 5, 6, 7⟩)]⟩ none "position" =
        .ok (5, .positionInfo ⟨1, 5, 6, 7⟩) ∧
      (1 : ℕ) ∈ NodeObj.addrs ⟨1, ⟨0, 100⟩, [(100, ⟨1, 5, 6, 7⟩)]⟩) ∧
    call_APIs (managerHandlers 5 ⟨1, ⟨0, 100⟩, [(100, ⟨1, 5, 6, 7⟩)]⟩ none
      "velocity") "get_NodeInfo" = (none, true) ∧
    call_APIs (managerHandlers 5 ⟨1, ⟨0, 100⟩, [(100, ⟨1, 5, 6, 7⟩)]⟩ none
      "time") "get_NodeInfos" = (none, true) :=
  ⟨(C10_get_node_info.1 5 ⟨1, ⟨0, 100⟩, [(100, ⟨1, 5, 6, 7⟩)]⟩ none).2,
    C10_get_node_info.2.1 5 ⟨1, ⟨0, 100⟩, [(100, ⟨1, 5, 6, 7⟩)]⟩ none
      (100, ⟨1, 5, 6, 7⟩) (by rfl),
    (C10_get_node_info.2.2.1 5 ⟨1, ⟨0, 100⟩, [(100, ⟨1, 5, 6, 7⟩)]⟩ none
      "velocity" (by decide) (by decide)).2,
    C10_get_node_info.2.2.2 5 ⟨1, ⟨0, 100⟩, [(100, ⟨1, 5, 6, 7⟩)]⟩ none
      "time" "get_NodeInfos" (by decide)⟩

end CosmicBeats

namespace CosmicBeats

/-! ## FOV pass table (`src/models/models_fov/modelfovtimebased.py`)

`ModelFovTimeBased.__find_Passes` (lines 168-261) maintains the shared
dictionary `__nodeToTimes : node id → array of (start, end, peerID,
peerKind)` rows.  For every processed satellite/ground pair it appends one
row per pass on the satellite side and the symmetric row on the ground
side, re-sorting both touched sequences by start time (lines 229-259; an
uninitialised `None` entry is the empty sequence).  numpy's stable
`argsort` is modelled by the stable `insertionSort`. -/

structure FovEntry where
  startTime : ℚ
  endTime : ℚ
  peerID : ℕ
  peerKind : ℕ
  deriving Repr, DecidableEq

/-- Row comparison used by the `argsort` on column 0 (start time). -/
def fovLe (a b : FovEntry) : Prop := a.startTime ≤ b.startTime

instance : DecidableRel fovLe := fun a b => by
  unfold fovLe
  infer_instance

instance : IsTotal FovEntry fovLe :=
  ⟨fun a b => le_total a.startTime b.startTime⟩

instance : IsTrans FovEntry fovLe :=
  ⟨fun _ _ _ h1 h2 => le_trans h1 h2⟩

/-- `_new = _new[_new[:,0].argsort()]` (lines 254-255). -/
def sortByStart (l : List FovEntry) : List FovEntry := l.insertionSort fovLe

/-- One satellite/ground pair processed by the loop body of
`__find_Passes`: the two node ids with their kinds and the passes returned
by the orbital model's `get_Passes`. -/
structure PassInsertion where
  satID : ℕ
  satKind : ℕ
  gsID : ℕ
  gsKind : ℕ
  passes : List (ℚ × ℚ)
  deriving Repr, DecidableEq

/-- The dictionary update for one pair (lines 227-259): skip when there are
no passes, otherwise append the satellite-side rows and the symmetric
ground-side rows and re-sort both sequences by start time.  As in the
source, both original sequences are read before either is written, and the
ground side is written last. -/
def insertPasses (st : ℕ → List FovEntry) (ins : PassInsertion) :
    ℕ → List FovEntry :=
  if ins.passes = [] then st
  else fun n =>
    if n = ins.gsID then
      sortByStart (st ins.gsID ++ ins.passes.map
        (fun p => FovEntry.mk p.1 p.2 ins.satID ins.satKind))
    else if n = ins.satID then
      sortByStart (st ins.satID ++ ins.passes.map
        (fun p => FovEntry.mk p.1 p.2 ins.gsID ins.gsKind))
    else st n

/-- The whole precompute: `__find_Passes` over all processed pairs. -/
def find_Passes (st : ℕ → List FovEntry) (inss : List PassInsertion) :
    ℕ → List FovEntry :=
  inss.foldl insertPasses st

/-- What `__find_Passes` guarantees about its inputs: the recorded kinds are
the nodes' kinds and a pass joins two distinct nodes (a satellite and a
ground/IoT node). -/
def WFInsertion (kindOf : ℕ → ℕ) (ins : PassInsertion) : Prop :=
  ins.satKind = kindOf ins.satID ∧ ins.gsKind = kindOf ins.gsID ∧
    ins.satID ≠ ins.gsID

/-- The symmetry invariant of the FOV table: every entry `(s, e, p, k)` of
node `n`'s sequence records `p`'s true kind and has the symmetric entry
`(s, e, n, kind n)` in `p`'s sequence. -/
def FovSymmetric (kindOf : ℕ → ℕ) (st : ℕ → List FovEntry) : Prop :=
  ∀ n e, e ∈ st n → e.peerKind = kindOf e.peerID ∧
    (⟨e.startTime, e.endTime, n, kindOf n⟩ : FovEntry) ∈ st e.peerID

/-- Every node's sequence is sorted by non-decreasing start time. -/
def FovSorted (st : ℕ → List FovEntry) : Prop :=
  ∀ n, (st n).Sorted fovLe

lemma mem_sortByStart {e : FovEntry} {l : List FovEntry} :
    e ∈ sortByStart l ↔ e ∈ l :=
  (List.perm_insertionSort fovLe l).mem_iff

lemma insertPasses_apply_gs (st : ℕ → List FovEntry) (ins : PassInsertion)
    (hp : ¬ins.passes = []) :
    insertPasses st ins ins.gsID = sortByStart (st ins.gsID ++
      ins.passes.map (fun p => FovEntry.mk p.1 p.2 ins.satID ins.satKind)) := by
  unfold insertPasses
  rw [if_neg hp]
  rw [if_pos rfl]

lemma insertPasses_apply_sat (st : ℕ → List FovEntry) (ins : PassInsertion)
    (hp : ¬ins.passes = []) (hne : ins.satID ≠ ins.gsID) :
    insertPasses st ins ins.satID = sortByStart (st ins.satID ++
      ins.passes.map (fun p => FovEntry.mk p.1 p.2 ins.gsID ins.gsKind)) := by
  unfold insertPasses
  rw [if_neg hp]
  rw [if_neg hne, if_pos rfl]

lemma insertPasses_mono (st : ℕ → List FovEntry) (ins : PassInsertion)
    (p : ℕ) {x : FovEntry} (hx : x ∈ st p) : x ∈ insertPasses st ins p := by
  unfold insertPasses
  by_cases hp : ins.passes = []
  · rw [if_pos hp]
    exact hx
  · rw [if_neg hp]
    by_cases h1 : p = ins.gsID
    · rw [if_pos h1]
      exact mem_sortByStart.2 (List.mem_append.2 (Or.inl (h1 ▸ hx)))
    · rw [if_neg h1]
      by_cases h2 : p = ins.satID
      · rw [if_pos h2]
        exact mem_sortByStart.2 (List.mem_append.2 (Or.inl (h2 ▸ hx)))
      · rw [if_neg h2]
        exact hx

lemma insertPasses_symm (kindOf : ℕ → ℕ) (st : ℕ → List FovEntry)
    (ins : PassInsertion) (hwf : WFInsertion kindOf ins)
    (hsym : FovSymmetric kindOf st) :
    FovSymmetric kindOf (insertPasses st ins) := by
  obtain ⟨hsk, hgk, hne⟩ := hwf
  intro n e he
  by_cases hp : ins.passes = []
  · unfold insertPasses at he ⊢
    rw [if_pos hp] at he ⊢
    exact hsym n e he
  · by_cases h1 : n = ins.gsID
    · subst h1
      rw [insertPasses_apply_gs st ins hp] at he
      rcases List.mem_append.1 (mem_sortByStart.1 he) with hold | hnew
      · obtain ⟨hk, hs⟩ := hsym _ e hold
        exact ⟨hk, insertPasses_mono st ins e.peerID hs⟩
      · obtain ⟨pq, hpq, hpe⟩ := List.mem_map.1 hnew
        subst hpe
        refine ⟨by simpa using hsk, ?_⟩
        show FovEntry.mk pq.1 pq.2 ins.gsID _ ∈
          insertPasses st ins ins.satID
        rw [insertPasses_apply_sat st ins hp hne]
        refine mem_sortByStart.2 (List.mem_append.2 (Or.inr ?_))
        refine List.mem_map.2 ⟨pq, hpq, ?_⟩
        rw [hgk]
    · by_cases h2 : n = ins.satID
      · subst h2
        rw [insertPasses_apply_sat st ins hp hne] at he
        rcases List.mem_append.1 (mem_sortByStart.1 he) with hold | hnew
        · obtain ⟨hk, hs⟩ := hsym _ e hold
          exact ⟨hk, insertPasses_mono st ins e.peerID hs⟩
        · obtain ⟨pq, hpq, hpe⟩ := List.mem_map.1 hnew
          subst hpe
          refine ⟨by simpa using hgk, ?_⟩
          show FovEntry.mk pq.1 pq.2 ins.satID _ ∈
            insertPasses st ins ins.gsID
          rw [insertPasses_apply_gs st ins hp]
          refine mem_sortByStart.2 (List.mem_append.2 (Or.inr ?_))
          refine List.mem_map.2 ⟨pq, hpq, ?_⟩
          rw [hsk]
      · have hee : e ∈ st n := by
          unfold insertPasses at he
          rw [if_neg hp] at he
          rw [if_neg h1, if_neg h2] at he
          exact he
        obtain ⟨hk, hs⟩ := hsym n e hee
        exact ⟨hk, insertPasses_mono st ins e.peerID hs⟩

lemma insertPasses_sorted (st : ℕ → List FovEntry) (ins : PassInsertion)
    (hsorted : FovSorted st) : FovSorted (insertPasses st ins) := by
  intro n
  unfold insertPasses
  by_cases hp : ins.passes = []
  · rw [if_pos hp]
    exact hsorted n
  · rw [if_neg hp]
    by_cases h1 : n = ins.gsID
    · rw [if_pos h1]
      exact List.sorted_insertionSort fovLe _
    · rw [if_neg h1]
      by_cases h2 : n = ins.satID
      · rw [if_pos h2]
        exact List.sorted_insertionSort fovLe _
      · rw [if_neg h2]
        exact hsorted n

lemma find_Passes_invariant (kindOf : ℕ → ℕ) :
    ∀ (inss : List PassInsertion) (st : ℕ → List FovEntry),
      (∀ ins ∈ inss, WFInsertion kindOf ins) →
      FovSymmetric kindOf st → FovSorted st →
      FovSymmetric kindOf (find_Passes st inss) ∧
        FovSorted (find_Passes st inss) := by
  intro inss
  induction inss with
  | nil =>
    intro st _ hsym hsorted
    exact ⟨hsym, hsorted⟩
  | cons ins rest ih =>
    intro st hwf hsym hsorted
    have h1 := insertPasses_symm kindOf st ins
      (hwf ins (List.mem_cons_self ins rest)) hsym
    have h2 := insertPasses_sorted st ins hsorted
    exact ih (insertPasses st ins)
      (fun i hi => hwf i (List.mem_cons_of_mem ins hi)) h1 h2

/-- **C5.**  After the FOV precompute (`__find_Passes` over any sequence of
satellite/ground pairs, each recording the two nodes' kinds, starting from
the empty table): for every entry `(s, e, p, k)` in node `n`'s sequence,
`k` is `p`'s kind and the symmetric entry `(s, e, n, kind n)` is in peer
`p`'s sequence, and every node's sequence is sorted by non-decreasing start
time. -/
theorem C5_fov_pass_table (kindOf : ℕ → ℕ) (inss : List PassInsertion)
    (hwf : ∀ ins ∈ inss, WFInsertion kindOf ins) :
    FovSymmetric kindOf (find_Passes (fun _ => []) inss) ∧
      FovSorted (find_Passes (fun _ => []) inss) :=
  find_Passes_invariant kindOf inss (fun _ => []) hwf
    (fun _ e he => absurd he (List.not_mem_nil e))
    (fun _ => List.sorted_nil)

/-- **C5, witness.**  A single pair — satellite 1 (kind 0) and ground node
2 (kind 2) with one pass `[10, 20]` — yields a symmetric, sorted table. -/
theorem C5_fov_pass_table_witness :
    FovSymmetric (fun n => if n = 1 then 0 else 2)
      (find_Passes (fun _ => []) [⟨1, 0, 2, 2, [(10, 20)]⟩]) ∧
    FovSorted (find_Passes (fun _ => []) [⟨1, 0, 2, 2, [(10, 20)]⟩]) :=
  C5_fov_pass_table (fun n => if n = 1 then 0 else 2)
    [⟨1, 0, 2, 2, [(10, 20)]⟩]
    (by
      intro ins hins
      rw [List.mem_singleton] at hins
      subst hins
      exact ⟨by norm_num, by norm_num, by norm_num⟩)

end CosmicBeats

namespace CosmicBeats

/-! ## LoRa radio device (`src/models/network/lora/loraradiodevice.py`)

A `LoraFrame` (`src/models/network/frame.py`, `loraframe.py`) as it sits in
a receiver's `__temporaryReceivedFrames` queue.  Each destination holds its
own deep copy, identified by `(id, instanceID)`. -/

structure LFrame where
  id : ℕ
  instanceID : ℕ := 0
  size : ℕ := 0
  payloadString : String := ""
  startTransmissionTime : ℚ := 0
  endTransmissionTime : ℚ := 0
  startReceptionTime : ℚ := 0
  endReceptionTime : ℚ := 0
  plr : ℚ := 0
  per : ℚ := 0
  rssi : ℚ := 0
  sf : ℕ := 7
  bw : ℚ := 125000
  cr : ℚ := 5
  collidedIDs : List ℕ := []
  deriving Repr, DecidableEq

/-- `Frame.add_collidedID` (`frame.py` lines 110-111): append to the
collided-id list. -/
def addCollidedID (f : LFrame) (cid : ℕ) : LFrame :=
  { f with collidedIDs := f.collidedIDs ++ [cid] }

/-- The capture branch of `update_Timestep` for an RSSI difference of at
least 6 dB (lines 450-475), given the stronger and the weaker frame.
`sf`/`bw` are taken from `_currFrame` (line 465) by the caller.  When the
stronger frame started first only the weaker is marked; otherwise the code
compares `difference_in_seconds(weakerStart, strongerStart)` — i.e.
`weakerStart - strongerStart` — against the lock-on window of four symbol
times, marking both on lock-on and only the weaker otherwise. -/
def captureResolve (strongerFrame weakerFrame : LFrame) (sf : ℕ) (bw : ℚ) :
    LFrame × LFrame :=
  if strongerFrame.startReceptionTime < weakerFrame.startReceptionTime then
    (strongerFrame, addCollidedID weakerFrame strongerFrame.id)
  else if weakerFrame.startReceptionTime - strongerFrame.startReceptionTime >
      ((2 ^ sf : ℚ) / bw) * 4 then
    (addCollidedID strongerFrame weakerFrame.id,
      addCollidedID weakerFrame strongerFrame.id)
  else
    (strongerFrame, addCollidedID weakerFrame strongerFrame.id)

/-- The pairwise collision check of `update_Timestep` (lines 433-475) for
`_currFrame` against one `_otherFrame`: no marking without time overlap;
both marked under 6 dB difference; capture otherwise.  Returns the updated
`(curr, other)` pair. -/
def collidePair (currFrame otherFrame : LFrame) : LFrame × LFrame :=
  if currFrame.startReceptionTime ≥ otherFrame.endReceptionTime ∨
      currFrame.endReceptionTime ≤ otherFrame.startReceptionTime then
    (currFrame, otherFrame)
  else if |currFrame.rssi - otherFrame.rssi| < 6 then
    (addCollidedID currFrame otherFrame.id,
      addCollidedID otherFrame currFrame.id)
  else if currFrame.rssi > otherFrame.rssi then
    captureResolve currFrame otherFrame currFrame.sf currFrame.bw
  else
    ((captureResolve otherFrame currFrame currFrame.sf currFrame.bw).2,
      (captureResolve otherFrame currFrame currFrame.sf currFrame.bw).1)

end CosmicBeats

namespace CosmicBeats

/-- In the ≥ 6 dB capture path the code never marks the stronger frame:
when the stronger frame did not start first, the compared quantity
`weakerStart - strongerStart` is non-positive while the lock-on window is
positive, so the "both collided" branch cannot be taken. -/
lemma captureResolve_stronger_unmarked (strongerFrame weakerFrame : LFrame)
    (sf : ℕ) (bw : ℚ) (hbw : 0 < bw) :
    (captureResolve strongerFrame weakerFrame sf bw).1 = strongerFrame := by
  unfold captureResolve
  by_cases hfirst : strongerFrame.startReceptionTime <
      weakerFrame.startReceptionTime
  · rw [if_pos hfirst]
  · rw [if_neg hfirst, if_neg ?_]
    push_neg at hfirst ⊢
    have hlock : 0 < ((2 ^ sf : ℚ) / bw) * 4 := by positivity
    linarith

/-- **C4** (evaluation at the failing input).  Frame 1 (the weaker, RSSI
−100 dB) starts reception at t = 0; frame 2 (the stronger, RSSI −80 dB,
20 dB ≥ 6 dB above) starts at t = 10 s, far beyond the lock-on window of
four symbol times (SF 7, BW 125 kHz: ≈ 4.1 ms).  The claim (and the code's
own comments) require both frames to be marked collided; the code marks
only the weaker frame — the stronger frame's collided list stays empty,
because line 468 computes `difference_in_seconds(weakerStart,
strongerStart) = −10 s`, which is never greater than the positive lock-on
window. -/
theorem C4_capture_lockon_code_eval :
    (collidePair
        { id := 1, startReceptionTime := 0, endReceptionTime := 20,
          rssi := -100, sf := 7, bw := 125000 }
        { id := 2, startReceptionTime := 10, endReceptionTime := 30,
          rssi := -80, sf := 7, bw := 125000 }).1.collidedIDs = [2] ∧
    (collidePair
        { id := 1, startReceptionTime := 0, endReceptionTime := 20,
          rssi := -100, sf := 7, bw := 125000 }
        { id := 2, startReceptionTime := 10, endReceptionTime := 30,
          rssi := -80, sf := 7, bw := 125000 }).2.collidedIDs = [] ∧
    (10 : ℚ) - 0 > ((2 ^ 7 : ℚ) / 125000) * 4 := by
  refine ⟨?_, ?_, by norm_num⟩ <;>
    norm_num [collidePair, captureResolve, addCollidedID]

end CosmicBeats

namespace CosmicBeats

/-- The inner `for _otherFrame in self.__temporaryReceivedFrames` loop of
`update_Timestep` (lines 433-475): the current frame is compared (and both
sides possibly marked) against every other frame still in the queue, in
queue order. -/
def markAgainst : LFrame → List LFrame → LFrame × List LFrame
  | c, [] => (c, [])
  | c, o :: rest =>
    ((markAgainst (collidePair c o).1 rest).1,
      (collidePair c o).2 :: (markAgainst (collidePair c o).1 rest).2)

/-- Collision marking only appends to a frame's collided-id list and leaves
its identity and reception window intact. -/
def FrameExt (f g : LFrame) : Prop :=
  g.id = f.id ∧ g.instanceID = f.instanceID ∧
    g.endReceptionTime = f.endReceptionTime ∧
    f.collidedIDs <+: g.collidedIDs

lemma frameExt_refl (f : LFrame) : FrameExt f f :=
  ⟨rfl, rfl, rfl, List.prefix_rfl⟩

lemma FrameExt.trans {f g h : LFrame} (h1 : FrameExt f g)
    (h2 : FrameExt g h) : FrameExt f h :=
  ⟨h2.1.trans h1.1, h2.2.1.trans h1.2.1, h2.2.2.1.trans h1.2.2.1,
    h1.2.2.2.trans h2.2.2.2⟩

lemma addCollidedID_ext (f : LFrame) (cid : ℕ) :
    FrameExt f (addCollidedID f cid) :=
  ⟨rfl, rfl, rfl, ⟨[cid], rfl⟩⟩

lemma captureResolve_ext (s w : LFrame) (sf : ℕ) (bw : ℚ) :
    FrameExt s (captureResolve s w sf bw).1 ∧
      FrameExt w (captureResolve s w sf bw).2 := by
  unfold captureResolve
  split
  · exact ⟨frameExt_refl s, addCollidedID_ext w s.id⟩
  · split
    · exact ⟨addCollidedID_ext s w.id, addCollidedID_ext w s.id⟩
    · exact ⟨frameExt_refl s, addCollidedID_ext w s.id⟩

lemma collidePair_ext (c o : LFrame) :
    FrameExt c (collidePair c o).1 ∧ FrameExt o (collidePair c o).2 := by
  unfold collidePair
  split
  · exact ⟨frameExt_refl c, frameExt_refl o⟩
  · split
    · exact ⟨addCollidedID_ext c o.id, addCollidedID_ext o c.id⟩
    · split
      · exact captureResolve_ext c o c.sf c.bw
      · exact ⟨(captureResolve_ext o c c.sf c.bw).2,
          (captureResolve_ext o c c.sf c.bw).1⟩

lemma markAgainst_ext :
    ∀ (os : List LFrame) (c : LFrame),
      FrameExt c (markAgainst c os).1 ∧
        List.Forall₂ FrameExt os (markAgainst c os).2 := by
  intro os
  induction os with
  | nil =>
    intro c
    exact ⟨frameExt_refl c, List.Forall₂.nil⟩
  | cons o rest ih =>
    intro c
    rw [markAgainst]
    exact ⟨(collidePair_ext c o).1.trans (ih (collidePair c o).1).1,
      List.Forall₂.cons (collidePair_ext c o).2 (ih (collidePair c o).1).2⟩

lemma markAgainst_snd_length (c : LFrame) (os : List LFrame) :
    (markAgainst c os).2.length = os.length :=
  (markAgainst_ext os c).2.length_eq.symm

/-- The half-duplex check (lines 484-496): the frame is dropped when its
reception window overlaps any recorded own-transmission window. -/
def is_TxOverlapDrop (transmitting : List (ℚ × ℚ)) (f : LFrame) : Bool :=
  transmitting.any (fun w =>
    (f.startReceptionTime ≤ w.1 ∧ w.1 < f.endReceptionTime) ∨
    (f.startReceptionTime < w.2 ∧ w.2 ≤ f.endReceptionTime))

/-- One draw of `random.random()`; the stream of draws is threaded
explicitly (an exhausted stream yields 1, which never drops). -/
def drawRand : List ℚ → ℚ × List ℚ
  | [] => (1, [])
  | r :: rest => (r, rest)

structure UpdateResult where
  remaining : List LFrame
  delivered : List LFrame
  rands : List ℚ
  deriving Repr, DecidableEq

/-- The main `while _framesIndex < len(...)` loop of `update_Timestep`
(lines 420-516).  `kept` holds the already-scanned frames whose reception
has not finished (they stay in the queue); `todo` the frames not yet
scanned.  A frame whose reception-end has passed is removed from the queue,
compared against every remaining frame (`kept ++ todo`), and then — unless
it was marked collided, mismatches the receiver's coding rate, overlaps an
own transmission, or loses the PER draw — delivered.  `delivered` collects
the frames handed to the receive callback / rx queue. -/
def updateLoop (crSetup : ℚ) (transmitting : List (ℚ × ℚ)) (now : ℚ) :
    List LFrame → List LFrame → List ℚ → UpdateResult
  | kept, [], rands => ⟨kept, [], rands⟩
  | kept, f :: rest, rands =>
    if f.endReceptionTime ≤ now then
      if (markAgainst f (kept ++ rest)).1.collidedIDs ≠ [] then
        updateLoop crSetup transmitting now
          ((markAgainst f (kept ++ rest)).2.take kept.length)
          ((markAgainst f (kept ++ rest)).2.drop kept.length) rands
      else if ¬((markAgainst f (kept ++ rest)).1.cr = crSetup) then
        updateLoop crSetup transmitting now
          ((markAgainst f (kept ++ rest)).2.take kept.length)
          ((markAgainst f (kept ++ rest)).2.drop kept.length) rands
      else if is_TxOverlapDrop transmitting
          (markAgainst f (kept ++ rest)).1 then
        updateLoop crSetup transmitting now
          ((markAgainst f (kept ++ rest)).2.take kept.length)
          ((markAgainst f (kept ++ rest)).2.drop kept.length) rands
      else if (drawRand rands).1 < (markAgainst f (kept ++ rest)).1.per then
        updateLoop crSetup transmitting now
          ((markAgainst f (kept ++ rest)).2.take kept.length)
          ((markAgainst f (kept ++ rest)).2.drop kept.length)
          (drawRand rands).2
      else
        ⟨(updateLoop crSetup transmitting now
            ((markAgainst f (kept ++ rest)).2.take kept.length)
            ((markAgainst f (kept ++ rest)).2.drop kept.length)
            (drawRand rands).2).remaining,
          (markAgainst f (kept ++ rest)).1 ::
            (updateLoop crSetup transmitting now
              ((markAgainst f (kept ++ rest)).2.take kept.length)
              ((markAgainst f (kept ++ rest)).2.drop kept.length)
              (drawRand rands).2).delivered,
          (updateLoop crSetup transmitting now
            ((markAgainst f (kept ++ rest)).2.take kept.length)
            ((markAgainst f (kept ++ rest)).2.drop kept.length)
            (drawRand rands).2).rands⟩
    else
      updateLoop crSetup transmitting now (kept ++ [f]) rest rands
  termination_by kept todo rands => todo.length
  decreasing_by
    all_goals
      simp [List.length_drop, markAgainst_snd_length]

/-- `LoraRadioDevice.update_Timestep` (lines 410-530): run the scan loop on
the queued frames, then garbage-collect the transmission windows that end
no later than the earliest still-pending reception (clamped at the current
time). -/
def update_Timestep (crSetup : ℚ) (transmitting : List (ℚ × ℚ)) (now : ℚ)
    (frames : List LFrame) (rands : List ℚ) :
    UpdateResult × List (ℚ × ℚ) :=
  let r := updateLoop crSetup transmitting now [] frames rands
  let earliestReception :=
    match r.remaining with
    | [] => now
    | x :: xs =>
      max (xs.foldl (fun a f => min a f.startReceptionTime)
        x.startReceptionTime) now
  (r, transmitting.filter (fun w => ¬(w.2 ≤ earliestReception)))

end CosmicBeats

namespace CosmicBeats

/-- A per-destination frame copy is identified by the global frame id and
the per-link instance id. -/
def frameKey (f : LFrame) : ℕ × ℕ := (f.id, f.instanceID)

lemma frameExt_key {f g : LFrame} (h : FrameExt f g) :
    frameKey g = frameKey f := by
  unfold frameKey
  rw [h.1, h.2.1]

lemma forall₂_frameExt_map_key :
    ∀ {l l' : List LFrame}, List.Forall₂ FrameExt l l' →
      l'.map frameKey = l.map frameKey := by
  intro l l' h
  induction h with
  | nil => rfl
  | cons h1 _ ih => simp [frameExt_key h1, ih]

lemma forall₂_exists_of_mem_right {α β : Type} {R : α → β → Prop} :
    ∀ {l : List α} {l' : List β}, List.Forall₂ R l l' →
      ∀ {x : β}, x ∈ l' → ∃ y ∈ l, R y x := by
  intro l l' h
  induction h with
  | nil => intro x hx; exact absurd hx (List.not_mem_nil x)
  | cons h1 _ ih =>
    intro x hx
    rcases List.mem_cons.1 hx with hx | hx
    · exact ⟨_, List.mem_cons_self _ _, hx ▸ h1⟩
    · obtain ⟨y, hy, hr⟩ := ih hx
      exact ⟨y, List.mem_cons_of_mem _ hy, hr⟩

lemma forall₂_frameExt_rest (kept rest : List LFrame) (f : LFrame) :
    List.Forall₂ FrameExt rest
      ((markAgainst f (kept ++ rest)).2.drop kept.length) := by
  have h := List.forall₂_drop kept.length (markAgainst_ext (kept ++ rest) f).2
  rwa [List.drop_left] at h

lemma forall₂_frameExt_kept (kept rest : List LFrame) (f : LFrame) :
    List.Forall₂ FrameExt kept
      ((markAgainst f (kept ++ rest)).2.take kept.length) := by
  have h := List.forall₂_take kept.length (markAgainst_ext (kept ++ rest) f).2
  rwa [List.take_left] at h

/-- Every frame handed to the callback finished its reception, had an empty
collided list at delivery, and descends (by collision marking only) from a
frame of the scanned queue. -/
lemma updateLoop_delivered_spec (crSetup : ℚ) (transmitting : List (ℚ × ℚ))
    (now : ℚ) :
    ∀ (kept todo : List LFrame) (rands : List ℚ),
      ∀ g ∈ (updateLoop crSetup transmitting now kept todo rands).delivered,
        g.endReceptionTime ≤ now ∧ g.collidedIDs = [] ∧
          ∃ f ∈ todo, FrameExt f g := by
  intro kept todo rands
  induction kept, todo, rands using updateLoop.induct crSetup transmitting now
    with
  | case1 kept rands => rw [updateLoop]; intro g hg; exact absurd hg (by simp)
  | case2 kept f rest rands h1 h2 ih =>
    intro g hg
    rw [updateLoop, if_pos h1, if_pos h2] at hg
    obtain ⟨he, hc, f0, hf0, hext⟩ := ih g hg
    obtain ⟨f1, hf1, hext1⟩ :=
      forall₂_exists_of_mem_right (forall₂_frameExt_rest kept rest f) hf0
    exact ⟨he, hc, f1, List.mem_cons_of_mem f hf1, hext1.trans hext⟩
  | case3 kept f rest rands h1 h2 h3 ih =>
    intro g hg
    rw [updateLoop, if_pos h1, if_neg h2, if_pos h3] at hg
    obtain ⟨he, hc, f0, hf0, hext⟩ := ih g hg
    obtain ⟨f1, hf1, hext1⟩ :=
      forall₂_exists_of_mem_right (forall₂_frameExt_rest kept rest f) hf0
    exact ⟨he, hc, f1, List.mem_cons_of_mem f hf1, hext1.trans hext⟩
  | case4 kept f rest rands h1 h2 h3 h4 ih =>
    intro g hg
    rw [updateLoop, if_pos h1, if_neg h2, if_neg h3, if_pos h4] at hg
    obtain ⟨he, hc, f0, hf0, hext⟩ := ih g hg
    obtain ⟨f1, hf1, hext1⟩ :=
      forall₂_exists_of_mem_right (forall₂_frameExt_rest kept rest f) hf0
    exact ⟨he, hc, f1, List.mem_cons_of_mem f hf1, hext1.trans hext⟩
  | case5 kept f rest rands h1 h2 h3 h4 h5 ih =>
    intro g hg
    rw [updateLoop, if_pos h1, if_neg h2, if_neg h3, if_neg h4,
      if_pos h5] at hg
    obtain ⟨he, hc, f0, hf0, hext⟩ := ih g hg
    obtain ⟨f1, hf1, hext1⟩ :=
      forall₂_exists_of_mem_right (forall₂_frameExt_rest kept rest f) hf0
    exact ⟨he, hc, f1, List.mem_cons_of_mem f hf1, hext1.trans hext⟩
  | case6 kept f rest rands h1 h2 h3 h4 h5 ih =>
    intro g hg
    rw [updateLoop, if_pos h1, if_neg h2, if_neg h3, if_neg h4,
      if_neg h5] at hg
    have hext := (markAgainst_ext (kept ++ rest) f).1
    rcases List.mem_cons.1 hg with hg | hg
    · subst hg
      refine ⟨hext.2.2.1 ▸ h1, by simpa using h2, f, List.mem_cons_self f rest,
        hext⟩
    · obtain ⟨he, hc, f0, hf0, hext0⟩ := ih g hg
      obtain ⟨f1, hf1, hext1⟩ :=
        forall₂_exists_of_mem_right (forall₂_frameExt_rest kept rest f) hf0
      exact ⟨he, hc, f1, List.mem_cons_of_mem f hf1, hext1.trans hext0⟩
  | case7 kept f rest rands h1 ih =>
    intro g hg
    rw [updateLoop, if_neg h1] at hg
    obtain ⟨he, hc, f0, hf0, hext⟩ := ih g hg
    exact ⟨he, hc, f0, List.mem_cons_of_mem f hf0, hext⟩

/-- Re-marking collided ids does not change the `(id, instanceID)` keys, so
removing the scanned frame preserves key distinctness of the queue. -/
lemma nodup_key_after_mark (kept rest : List LFrame) (f : LFrame)
    (hnd : ((kept ++ f :: rest).map frameKey).Nodup) :
    ((((markAgainst f (kept ++ rest)).2.take kept.length) ++
      ((markAgainst f (kept ++ rest)).2.drop kept.length)).map
        frameKey).Nodup := by
  rw [List.take_append_drop, forall₂_frameExt_map_key
    (markAgainst_ext (kept ++ rest) f).2]
  refine List.Nodup.sublist ?_ hnd
  exact ((List.sublist_cons_self f rest).append_left kept).map frameKey

/-- If the queued frames have pairwise-distinct `(id, instanceID)` keys,
the delivered frames also have pairwise-distinct keys — each per-destination
copy is delivered at most once. -/
lemma updateLoop_delivered_nodup (crSetup : ℚ) (transmitting : List (ℚ × ℚ))
    (now : ℚ) :
    ∀ (kept todo : List LFrame) (rands : List ℚ),
      ((kept ++ todo).map frameKey).Nodup →
      (((updateLoop crSetup transmitting now kept todo
        rands).delivered).map frameKey).Nodup := by
  intro kept todo rands
  induction kept, todo, rands using updateLoop.induct crSetup transmitting now
    with
  | case1 kept rands =>
    intro _
    rw [updateLoop]
    simp
  | case2 kept f rest rands h1 h2 ih =>
    intro hnd
    rw [updateLoop, if_pos h1, if_pos h2]
    exact ih (nodup_key_after_mark kept rest f hnd)
  | case3 kept f rest rands h1 h2 h3 ih =>
    intro hnd
    rw [updateLoop, if_pos h1, if_neg h2, if_pos h3]
    exact ih (nodup_key_after_mark kept rest f hnd)
  | case4 kept f rest rands h1 h2 h3 h4 ih =>
    intro hnd
    rw [updateLoop, if_pos h1, if_neg h2, if_neg h3, if_pos h4]
    exact ih (nodup_key_after_mark kept rest f hnd)
  | case5 kept f rest rands h1 h2 h3 h4 h5 ih =>
    intro hnd
    rw [updateLoop, if_pos h1, if_neg h2, if_neg h3, if_neg h4, if_pos h5]
    exact ih (nodup_key_after_mark kept rest f hnd)
  | case6 kept f rest rands h1 h2 h3 h4 h5 ih =>
    intro hnd
    rw [updateLoop, if_pos h1, if_neg h2, if_neg h3, if_neg h4, if_neg h5]
    rw [List.map_cons, List.nodup_cons]
    constructor
    · intro hmem
      obtain ⟨g, hgD, hkey⟩ := List.mem_map.1 hmem
      obtain ⟨_, _, f0, hf0, hext0⟩ := updateLoop_delivered_spec crSetup
        transmitting now _ _ _ g hgD
      obtain ⟨f1, hf1, hext1⟩ :=
        forall₂_exists_of_mem_right (forall₂_frameExt_rest kept rest f) hf0
      have hkeyf : frameKey f ∈ rest.map frameKey := by
        rw [← frameExt_key (markAgainst_ext (kept ++ rest) f).1, ← hkey,
          frameExt_key hext0, frameExt_key hext1]
        exact List.mem_map_of_mem frameKey hf1
      have hnotin : frameKey f ∉ rest.map frameKey := by
        have hsuffix : ((f :: rest).map frameKey).Nodup :=
          List.Nodup.sublist ((List.sublist_append_right kept
            (f :: rest)).map frameKey) hnd
        exact (List.nodup_cons.1 (by simpa using hsuffix)).1
      exact hnotin hkeyf
    · exact ih (nodup_key_after_mark kept rest f hnd)
  | case7 kept f rest rands h1 ih =>
    intro hnd
    rw [updateLoop, if_neg h1]
    refine ih ?_
    rw [List.append_assoc]
    simpa using hnd

end CosmicBeats

namespace CosmicBeats

/-- **C3.**  In the LoRa radio's per-step update: every frame handed to the
receive callback (or rx queue) satisfies `now ≥ endReceptionTime` and has an
empty collided-id list at delivery; a queued frame whose collided-id list is
non-empty is never delivered; and, provided the queued per-destination
copies have pairwise-distinct `(id, instanceID)` keys, each copy is
delivered at most once. -/
theorem C3_frame_delivery :
    (∀ (crSetup : ℚ) (transmitting : List (ℚ × ℚ)) (now : ℚ)
        (frames : List LFrame) (rands : List ℚ),
        ∀ g ∈ (update_Timestep crSetup transmitting now frames
            rands).1.delivered,
          now ≥ g.endReceptionTime ∧ g.collidedIDs = []) ∧
    (∀ (crSetup : ℚ) (transmitting : List (ℚ × ℚ)) (now : ℚ)
        (frames : List LFrame) (rands : List ℚ),
        (frames.map frameKey).Nodup →
        ∀ f ∈ frames, f.collidedIDs ≠ [] →
          ∀ g ∈ (update_Timestep crSetup transmitting now frames
              rands).1.delivered, frameKey g ≠ frameKey f) ∧
    (∀ (crSetup : ℚ) (transmitting : List (ℚ × ℚ)) (now : ℚ)
        (frames : List LFrame) (rands : List ℚ),
        (frames.map frameKey).Nodup →
        (((update_Timestep crSetup transmitting now frames
          rands).1.delivered).map frameKey).Nodup) := by
  refine ⟨?_, ?_, ?_⟩
  · intro crSetup transmitting now frames rands g hg
    obtain ⟨he, hc, _⟩ := updateLoop_delivered_spec crSetup transmitting now
      [] frames rands g hg
    exact ⟨he, hc⟩
  · intro crSetup transmitting now frames rands hnd f hf hfne g hg hkeq
    obtain ⟨_, hc, f0, hf0, hext⟩ := updateLoop_delivered_spec crSetup
      transmitting now [] frames rands g hg
    have hpref := hext.2.2.2
    rw [hc] at hpref
    obtain ⟨t, ht⟩ := hpref
    have hf0nil : f0.collidedIDs = [] := (List.append_eq_nil.1 ht).1
    have hkey : frameKey f0 = frameKey f := by
      rw [← frameExt_key hext, hkeq]
    have : f0 = f := List.inj_on_of_nodup_map hnd hf0 hf hkey
    rw [this] at hf0nil
    exact hfne hf0nil
  · intro crSetup transmitting now frames rands hnd
    exact updateLoop_delivered_nodup crSetup transmitting now [] frames rands
      (by simpa using hnd)

/-- **C3, witness.**  A single ripe frame (reception ended at 5 ≤ now = 10,
matching coding rate, zero PER) is delivered; the key-distinctness parts
hold for the singleton queue. -/
theorem C3_frame_delivery_witness :
    (∀ g ∈ (update_Timestep 5 [] 10 [{ id := 1, endReceptionTime := 5 }]
        []).1.delivered, (10 : ℚ) ≥ g.endReceptionTime ∧
          g.collidedIDs = []) ∧
    (∀ f ∈ ([{ id := 1, endReceptionTime := 5 }] : List LFrame),
        f.collidedIDs ≠ [] →
        ∀ g ∈ (update_Timestep 5 [] 10 [{ id := 1, endReceptionTime := 5 }]
            []).1.delivered, frameKey g ≠ frameKey f) ∧
    (((update_Timestep 5 [] 10 [{ id := 1, endReceptionTime := 5 }]
      []).1.delivered).map frameKey).Nodup :=
  ⟨C3_frame_delivery.1 5 [] 10 [{ id := 1, endReceptionTime := 5 }] [],
    C3_frame_delivery.2.1 5 [] 10 [{ id := 1, endReceptionTime := 5 }] []
      (by simp),
    C3_frame_delivery.2.2 5 [] 10 [{ id := 1, endReceptionTime := 5 }] []
      (by simp)⟩

end CosmicBeats

namespace CosmicBeats

/-! ## LoRa send (`src/models/network/lora/loraradiodevice.py` lines
190-197, 214-232, 244-377, and `loralink.py` lines 277-319)

The link-physics values that require transcendental float math (RSSI, PLR,
PER, SNR — log₁₀-based) enter as an oracle `link` per destination; the
time-on-air and propagation delay are computed exactly as in the source.
The power-model charge on success (lines 366-371) lives in `ModelPower`
and is covered by C7. -/

structure RadioPhySetup where
  frequency : ℚ := 138000000
  bandwidth : ℚ := 125000
  sf : ℕ := 7
  coding_rate : ℚ := 5
  preamble : ℚ := 8
  bits_allowed : ℕ := 0
  deriving Repr, DecidableEq

/-- `LoraRadioDevice.get_MTU` (lines 190-197). -/
def get_MTU : ℕ := 255

/-- `LoraLink.get_TimeOnAir` (lines 277-309), in milliseconds: SX127x
preamble + header + payload symbols at the symbol rate `2^SF / BW`, with
coding-rate and low-SF adjustments. -/
def get_TimeOnAir (phy : RadioPhySetup) (frameLength : ℕ) : ℚ :=
  let symbolTime := (2 ^ phy.sf : ℚ) / phy.bandwidth
  let preambleTime :=
    (phy.preamble + 4.25 + (if phy.sf ≤ 6 then 2 else 0)) * symbolTime
  let dataLength :=
    (⌈(((8 * frameLength + 16 + 20 + 8 : ℤ) - 4 * phy.sf -
      8 * (if phy.sf ≤ 6 then 1 else 0) : ℤ) / (4 * phy.sf : ℚ))⌉ : ℚ) *
      phy.coding_rate
  let payloadTime := dataLength * symbolTime
  let headerTime := 8 * symbolTime
  (preambleTime + headerTime + payloadTime) * 1000

/-- A peer device on the shared channel, with its distance from the sender
(computed by `get_Position`/`get_distance` at the current time). -/
structure PeerDevice where
  address : ℤ
  distance : ℚ
  deriving Repr, DecidableEq

/-- Per-link values whose computation needs float log₁₀ tables
(`LoraLink.get_ReceivedSignalStrength`, `get_PLR`, `get_PERFromBER`,
`get_SNR`). -/
structure LinkVals where
  rssi : ℚ := 0
  plr : ℚ := 0
  per : ℚ := 0
  snr : ℚ := 0
  deriving Repr, DecidableEq

/-- `LoraRadioDevice.is_TxBusy` (lines 214-232): some recorded transmission
window `[start, end)` contains the current time. -/
def is_TxBusy (transmittingTimes : List (ℚ × ℚ)) (currentTime : ℚ) : Bool :=
  transmittingTimes.any (fun w => w.1 ≤ currentTime ∧ currentTime < w.2)

/-- The per-destination loop of `send` (lines 306-364): every channel
device other than the sender receives a fresh frame copy (with the
computed transmission/reception windows and link values) and one
transmission window is recorded per copy; returns (deliveries, new
windows, ret). -/
def sendLoop (phy : RadioPhySetup) (link : PeerDevice → LinkVals)
    (selfAddress : ℤ) (currentTime : ℚ) (frameId : ℕ) (payloadSize : ℕ)
    (payload : String) :
    List PeerDevice → ℕ → List (ℤ × LFrame) × List (ℚ × ℚ) × Bool
  | [], _ => ([], [], false)
  | d :: rest, instanceId =>
    if d.address ≠ selfAddress then
      ((d.address,
        { id := frameId, instanceID := instanceId, size := payloadSize,
          payloadString := payload,
          startTransmissionTime := currentTime,
          endTransmissionTime :=
            currentTime + get_TimeOnAir phy payloadSize / 1000,
          startReceptionTime := currentTime + d.distance / 300000000,
          endReceptionTime := currentTime + d.distance / 300000000 +
            get_TimeOnAir phy payloadSize / 1000,
          plr := (link d).plr, per := (link d).per, rssi := (link d).rssi,
          sf := phy.sf, bw := phy.bandwidth, cr := phy.coding_rate }) ::
          (sendLoop phy link selfAddress currentTime frameId payloadSize
            payload rest (instanceId + 1)).1,
        (currentTime, currentTime + get_TimeOnAir phy payloadSize / 1000) ::
          (sendLoop phy link selfAddress currentTime frameId payloadSize
            payload rest (instanceId + 1)).2.1,
        true)
    else
      sendLoop phy link selfAddress currentTime frameId payloadSize payload
        rest instanceId

structure SendOutcome where
  ret : Bool
  transmittingTimes : List (ℚ × ℚ)
  deliveries : List (ℤ × LFrame)
  mtuDrop : Bool := false
  busyDrop : Bool := false
  noValidChannelDrop : Bool := false
  deriving Repr, DecidableEq

/-- `LoraRadioDevice.send` (lines 244-377): reject oversize frames
(`mtuDrop`), a busy transmitter (`busyDrop`) and a missing channel
(`noValidChannelDrop`) in that order, leaving the transmission windows
untouched and delivering nothing; otherwise (after the
`len(self.__channels) == 1` assertion and the channel-index lookup)
transmit one deep copy per other device on the channel, recording one
transmission window each. -/
def send (phy : RadioPhySetup) (link : PeerDevice → LinkVals)
    (selfAddress : ℤ) (transmittingTimes : List (ℚ × ℚ))
    (channels : List (List PeerDevice)) (currentTime : ℚ) (frameId : ℕ)
    (payloadSize : ℕ) (payload : String) (channelIndex : ℕ) :
    Except String SendOutcome :=
  if payloadSize > get_MTU then
    .ok ⟨false, transmittingTimes, [], true, false, false⟩
  else if is_TxBusy transmittingTimes currentTime then
    .ok ⟨false, transmittingTimes, [], false, true, false⟩
  else if channels.length = 0 then
    .ok ⟨false, transmittingTimes, [], false, false, true⟩
  else if channels.length = 1 then
    match channels.get? channelIndex with
    | some ch =>
      .ok ⟨(sendLoop phy link selfAddress currentTime frameId payloadSize
          payload ch 1).2.2,
        transmittingTimes ++ (sendLoop phy link selfAddress currentTime
          frameId payloadSize payload ch 1).2.1,
        (sendLoop phy link selfAddress currentTime frameId payloadSize
          payload ch 1).1, false, false, false⟩
    | none => .error "IndexError: channel index out of range"
  else .error "AssertionError: len(self.__channels) == 1"

lemma sendLoop_ret_iff (phy : RadioPhySetup) (link : PeerDevice → LinkVals)
    (selfAddress : ℤ) (currentTime : ℚ) (frameId : ℕ) (payloadSize : ℕ)
    (payload : String) :
    ∀ (devs : List PeerDevice) (instanceId : ℕ),
      ((sendLoop phy link selfAddress currentTime frameId payloadSize
          payload devs instanceId).2.2 = true ↔
        ∃ d ∈ devs, d.address ≠ selfAddress) ∧
      ((sendLoop phy link selfAddress currentTime frameId payloadSize
          payload devs instanceId).1 = [] ↔
        ¬∃ d ∈ devs, d.address ≠ selfAddress) := by
  intro devs
  induction devs with
  | nil =>
    intro instanceId
    rw [sendLoop]
    simp
  | cons d rest ih =>
    intro instanceId
    rw [sendLoop]
    by_cases hd : d.address ≠ selfAddress
    · rw [if_pos hd]
      constructor
      · simp only [List.mem_cons]
        exact ⟨fun _ => ⟨d, Or.inl rfl, hd⟩, fun _ => trivial⟩
      · constructor
        · intro h
          exact absurd h (by simp)
        · intro h
          exact absurd ⟨d, List.mem_cons_self d rest, hd⟩ h
    · rw [if_neg hd]
      push_neg at hd
      constructor
      · rw [(ih instanceId).1]
        constructor
        · rintro ⟨x, hx, hxa⟩
          exact ⟨x, List.mem_cons_of_mem d hx, hxa⟩
        · rintro ⟨x, hx, hxa⟩
          rcases List.mem_cons.1 hx with hx | hx
          · exact absurd (hx ▸ hd) hxa
          · exact ⟨x, hx, hxa⟩
      · rw [(ih instanceId).2]
        constructor
        · rintro h ⟨x, hx, hxa⟩
          rcases List.mem_cons.1 hx with hx | hx
          · exact hxa (hx ▸ hd)
          · exact h ⟨x, hx, hxa⟩
        · rintro h ⟨x, hx, hxa⟩
          exact h ⟨x, List.mem_cons_of_mem d hx, hxa⟩

end CosmicBeats

namespace CosmicBeats

/-- **C6.**  `send(payloadSize, payload, channelIndex)`: a payload larger
than the MTU (255 bytes) is rejected with `mtuDrop`; otherwise, if a
recorded transmission window contains the current time, it is rejected with
`busyDrop`; otherwise, if the device has no channel, it is rejected with
`noValidChannelDrop`; in each rejection the transmission windows are
unchanged and no peer receives a frame, and `send` returns false.  A frame
of exactly MTU bytes with a free transmitter and a (single) channel holding
at least one other device is transmitted: `send` returns true and at least
one peer receives a copy. -/
theorem C6_send_guards :
    (∀ (phy : RadioPhySetup) (link : PeerDevice → LinkVals)
        (selfAddress : ℤ) (tt : List (ℚ × ℚ))
        (channels : List (List PeerDevice)) (t : ℚ) (fid ps : ℕ)
        (payload : String) (ci : ℕ), ps > get_MTU →
        send phy link selfAddress tt channels t fid ps payload ci =
          .ok ⟨false, tt, [], true, false, false⟩) ∧
    (∀ (phy : RadioPhySetup) (link : PeerDevice → LinkVals)
        (selfAddress : ℤ) (tt : List (ℚ × ℚ))
        (channels : List (List PeerDevice)) (t : ℚ) (fid ps : ℕ)
        (payload : String) (ci : ℕ), ps ≤ get_MTU →
        is_TxBusy tt t = true →
        send phy link selfAddress tt channels t fid ps payload ci =
          .ok ⟨false, tt, [], false, true, false⟩) ∧
    (∀ (phy : RadioPhySetup) (link : PeerDevice → LinkVals)
        (selfAddress : ℤ) (tt : List (ℚ × ℚ)) (t : ℚ) (fid ps : ℕ)
        (payload : String) (ci : ℕ), ps ≤ get_MTU →
        is_TxBusy tt t = false →
        send phy link selfAddress tt [] t fid ps payload ci =
          .ok ⟨false, tt, [], false, false, true⟩) ∧
    (∀ (phy : RadioPhySetup) (link : PeerDevice → LinkVals)
        (selfAddress : ℤ) (tt : List (ℚ × ℚ)) (ch : List PeerDevice)
        (t : ℚ) (fid : ℕ) (payload : String),
        is_TxBusy tt t = false →
        (∃ d ∈ ch, d.address ≠ selfAddress) →
        ∃ out, send phy link selfAddress tt [ch] t fid get_MTU payload 0 =
            .ok out ∧ out.ret = true ∧ out.deliveries ≠ [] ∧
          out.mtuDrop = false ∧ out.busyDrop = false ∧
          out.noValidChannelDrop = false) := by
  refine ⟨?_, ?_, ?_, ?_⟩
  · intro phy link selfAddress tt channels t fid ps payload ci hps
    unfold send
    rw [if_pos hps]
  · intro phy link selfAddress tt channels t fid ps payload ci hps hbusy
    unfold send
    rw [if_neg (by omega), if_pos hbusy]
  · intro phy link selfAddress tt t fid ps payload ci hps hbusy
    unfold send
    rw [if_neg (by omega), if_neg (by simp [hbusy])]
    simp
  · intro phy link selfAddress tt ch t fid payload hbusy hpeer
    unfold send
    rw [if_neg (by omega), if_neg (by simp [hbusy]),
      if_neg (by simp), if_pos (by simp)]
    simp only [List.get?_cons_zero]
    refine ⟨_, rfl, ?_, ?_, rfl, rfl, rfl⟩
    · exact (sendLoop_ret_iff phy link selfAddress t fid get_MTU payload
        ch 1).1.2 hpeer
    · intro hnil
      exact ((sendLoop_ret_iff phy link selfAddress t fid get_MTU payload
        ch 1).2.1 hnil) hpeer

/-- **C6, witness.**  A 256-byte payload is dropped at the MTU; a send at
time 2 with a live window `[0, 5)` is `busyDrop`; no channel gives
`noValidChannelDrop`; a 255-byte frame to a channel with one other device
(address 2, 1 km away) succeeds. -/
theorem C6_send_guards_witness :
    send {} (fun _ => {}) 1 [] [[⟨2, 1000⟩]] 0 7 256 "p" 0 =
      .ok ⟨false, [], [], true, false, false⟩ ∧
    send {} (fun _ => {}) 1 [(0, 5)] [[⟨2, 1000⟩]] 2 7 255 "p" 0 =
      .ok ⟨false, [(0, 5)], [], false, true, false⟩ ∧
    send {} (fun _ => {}) 1 [] [] 2 7 255 "p" 0 =
      .ok ⟨false, [], [], false, false, true⟩ ∧
    (∃ out, send {} (fun _ => {}) 1 [] [[⟨2, 1000⟩]] 0 7 get_MTU "p" 0 =
        .ok out ∧ out.ret = true ∧ out.deliveries ≠ [] ∧
      out.mtuDrop = false ∧ out.busyDrop = false ∧
      out.noValidChannelDrop = false) :=
  ⟨C6_send_guards.1 {} (fun _ => {}) 1 [] [[⟨2, 1000⟩]] 0 7 256 "p" 0
      (by norm_num [get_MTU]),
    C6_send_guards.2.1 {} (fun _ => {}) 1 [(0, 5)] [[⟨2, 1000⟩]] 2 7 255 "p"
      0 (by norm_num [get_MTU]) (by norm_num [is_TxBusy]),
    C6_send_guards.2.2.1 {} (fun _ => {}) 1 [] 2 7 255 "p" 0
      (by norm_num [get_MTU]) (by norm_num [is_TxBusy]),
    C6_send_guards.2.2.2 {} (fun _ => {}) 1 [] [⟨2, 1000⟩] 0 7 "p"
      (by norm_num [is_TxBusy])
      ⟨⟨2, 1000⟩, List.mem_singleton.2 rfl, by norm_num⟩⟩

end CosmicBeats
